import Mathlib

/-!
Verification of `fastapi_sugar`'s global-object lifecycle manager
(`src/fastapi_sugar/utils/global_manager.py`) and its settings object
(`src/fastapi_sugar/settings.py`).

The Python code is shallowly embedded: the manager's mutable state
(`_instances`, `_dependencies`, `_dependency_graph`) becomes an explicit
`MState` record threaded through each operation; every operation returns a
`PyResult`, which carries the state as mutated up to the point of a raised
exception (Python mutations made before a `raise` persist), together with a
trace of the observable lifecycle events (constructor calls, `setup`,
`teardown`).  User-defined class behaviour (whether a constructor or
`setup`/`teardown` raises, the `param_name` override, a custom `get_fn`) is
abstracted into an environment `Env`.  Python dicts are insertion-ordered
association lists; `networkx`'s `DiGraph`, `topological_sort` (Kahn's
algorithm popping from the end of the zero-indegree list, as networkx does)
and `is_directed_acyclic_graph` are embedded over explicit node/edge lists.
The recursion of `_get_instance` is bounded by explicit fuel; running out of
fuel yields the distinguished `PyExc.fuelOut` (a modelling artifact standing
for non-termination, never a behaviour of the Python code on inputs where it
terminates).
-/

namespace FastapiSugar

/-- Type identities (Python classes used as dict keys / graph nodes). -/
abbrev Cls := Nat

/-- Python exceptions seen by this code.  `runtimeErrorFrom m c` is
`raise RuntimeError(m) from c` (the wrapped cause is kept). -/
inductive PyExc where
  | typeError (msg : String)
  | valueError (msg : String)
  | runtimeError (msg : String)
  | runtimeErrorFrom (msg : String) (cause : PyExc)
  | attributeError (msg : String)
  | keyError (msg : String)
  | configurationError (msg : String)
  | unfeasible (msg : String)
  | fuelOut
deriving DecidableEq, Repr

/-- `isinstance(e, TypeError)` for the `except TypeError` clause. -/
def isTypeError : PyExc → Bool
  | .typeError _ => true
  | _ => false

/-- A constructed instance: its class and a construction-order sequence
number (the position of its constructor call among all constructor calls,
used to observe construction order). -/
structure Inst where
  cls : Cls
  seq : Nat
deriving DecidableEq, Repr

/-- Abstracted behaviour of one registered class: whether its constructor,
`setup()` or `teardown()` raises (and what), what `param_name()` returns
(`none` models an override returning `None`), and whether a `get_fn` is set. -/
structure ClassSpec where
  ctorRaises : Option PyExc
  setupRaises : Option PyExc
  teardownRaises : Option PyExc
  paramName : Option String
  hasGetFn : Bool
deriving DecidableEq, Repr

abbrev Env := Cls → ClassSpec

/-- Observable lifecycle events, in chronological order. -/
inductive Event where
  | construct (c : Cls) (seq : Nat)
  | setupOk (c : Cls)
  | setupFail (c : Cls)
  | teardown (c : Cls)
deriving DecidableEq, Repr

/-- Python dict lookup (`d[k]` / `k in d`) over an insertion-ordered
association list. -/
def alistGet {κ α : Type} [BEq κ] (d : List (κ × α)) (k : κ) : Option α :=
  (d.find? (fun p => p.1 == k)).map Prod.snd

/-- Python dict assignment `d[k] = v`: updates in place when the key exists
(keeping its position), appends otherwise. -/
def alistSet {κ α : Type} [BEq κ] (d : List (κ × α)) (k : κ) (v : α) : List (κ × α) :=
  if d.any (fun p => p.1 == k) then d.map (fun p => if p.1 == k then (k, v) else p)
  else d ++ [(k, v)]

/-- `nx.DiGraph`: insertion-ordered node list and edge list (an edge
`(dep, dependent)` points from a dependency to its dependent). -/
structure Graph where
  nodes : List Cls
  edges : List (Cls × Cls)
deriving DecidableEq, Repr

/-- `G.add_node(c)`: no-op when present. -/
def Graph.addNode (g : Graph) (c : Cls) : Graph :=
  if c ∈ g.nodes then g else { g with nodes := g.nodes ++ [c] }

/-- `G.add_edge(a, b)`: adds missing endpoints, no-op when the edge exists. -/
def Graph.addEdge (g : Graph) (a b : Cls) : Graph :=
  let g1 := (g.addNode a).addNode b
  if (a, b) ∈ g1.edges then g1 else { g1 with edges := g1.edges ++ [(a, b)] }

/-- In-degree of `c` in an edge list. -/
def indeg (edges : List (Cls × Cls)) (c : Cls) : Nat :=
  (edges.filter (fun e => e.2 == c)).length

/-- The loop of `nx.topological_sort` (Kahn's algorithm).  networkx
iterates `topological_generations`: the zero-indegree nodes are kept in a
Python list seeded in node-insertion order and processed front to back (a
FIFO queue across generations); emitting a node drops its out-edges and
appends the children whose in-degree became zero, in edge order. -/
def kahnGo : Nat → List (Cls × Cls) → List Cls → List Cls → List Cls
  | 0, _, _, acc => acc.reverse
  | _ + 1, _, [], acc => acc.reverse
  | fuel + 1, edges, n :: rest, acc =>
    let edges' := edges.filter (fun e => !(e.1 == n))
    let children := (edges.filter (fun e => e.1 == n)).map Prod.snd
    let newZero := children.filter (fun c => indeg edges' c == 0)
    kahnGo fuel edges' (rest ++ newZero) (n :: acc)

/-- The node sequence `nx.topological_sort(g)` yields (on a cyclic graph,
the nodes yielded before `NetworkXUnfeasible` is raised). -/
def kahn (g : Graph) : List Cls :=
  kahnGo g.nodes.length g.edges (g.nodes.filter (fun v => indeg g.edges v == 0)) []

/-- `nx.is_directed_acyclic_graph`: the graph is a DAG iff Kahn's algorithm
emits every node. -/
def isDAG (g : Graph) : Bool :=
  (kahn g).length == g.nodes.length

/-- The manager's mutable state: `_instances` (cache entry `none` =
registered but not constructed), `_dependencies`, `_dependency_graph`, and
the next construction sequence number (the count of constructor calls so
far, used only to stamp `Inst.seq`). -/
structure MState where
  instances : List (Cls × Option Inst)
  deps : List (Cls × List Cls)
  graph : Graph
  counter : Nat
deriving DecidableEq, Repr

/-- A fresh `GlobalObjectManager()`. -/
def mstate0 : MState := ⟨[], [], ⟨[], []⟩, 0⟩

/-- Outcome of a Python call: final state (mutations before a raise
persist), event trace, and the returned value or the propagated exception. -/
inductive PyResult (α : Type) where
  | ok (s : MState) (tr : List Event) (val : α)
  | exc (s : MState) (tr : List Event) (e : PyExc)
deriving DecidableEq, Repr

def PyResult.st {α : Type} : PyResult α → MState
  | .ok s _ _ => s
  | .exc s _ _ => s

def PyResult.trace {α : Type} : PyResult α → List Event
  | .ok _ tr _ => tr
  | .exc _ tr _ => tr

def PyResult.isOk {α : Type} : PyResult α → Bool
  | .ok _ _ _ => true
  | .exc _ _ _ => false

/-- `GlobalObjectManager.register` (the body of `decorator`): stores the
cache entry (reset to `None`), stores the dependency list, adds the node and
one edge per dependency, and only then checks acyclicity, raising
`ValueError` without rolling anything back. -/
def register (s : MState) (c : Cls) (dependencies : List Cls) : PyResult Unit :=
  let s1 : MState :=
    { instances := alistSet s.instances c none
      deps := alistSet s.deps c dependencies
      graph := dependencies.foldl (fun g d => g.addEdge d c) (s.graph.addNode c)
      counter := s.counter }
  if isDAG s1.graph then .ok s1 [] ()
  else .exc s1 [] (.valueError ("Circular dependency detected when registering " ++ toString c))

/-- Sequencing of two Python steps: when the first raises, its state and
trace stand; when it returns, the second runs from the first's final state
and the traces concatenate (chronological order). -/
def pseq {α β : Type} (r : PyResult α) (f : MState → α → PyResult β) : PyResult β :=
  match r with
  | .exc s tr e => .exc s tr e
  | .ok s tr a =>
    match f s a with
    | .exc s' tr' e => .exc s' (tr ++ tr') e
    | .ok s' tr' b => .ok s' (tr ++ tr') b

/-- The dependency loop of `_get_instance`: resolve each dependency in
order, then add it to `dep_instances` under its `param_name()` unless that
name is `None`.  `gi` is `self._get_instance` at the remaining fuel. -/
def resolveDepsWith (env : Env) (gi : MState → Cls → PyResult Inst) :
    MState → List Cls → List (String × Inst) → PyResult (List (String × Inst))
  | s, [], acc => .ok s [] acc
  | s, dep :: rest, acc =>
    pseq (gi s dep) (fun s1 di =>
      resolveDepsWith env gi s1 rest
        (match (env dep).paramName with
          | none => acc
          | some pn => alistSet acc pn di))

/-- `GlobalObjectManager._get_instance`: raise `RuntimeError` when not
registered; return the cached instance when present; otherwise resolve
dependencies recursively, call the constructor (caching its result), then
`setup()`, wrapping a `TypeError` from either in
`RuntimeError("Failed to instantiate ...") from t` — any other exception
propagates as is.  Note the constructed instance is cached before `setup()`
runs. -/
def getInstance (env : Env) : Nat → MState → Cls → PyResult Inst
  | 0, s, _ => .exc s [] .fuelOut
  | fuel + 1, s, cls =>
    match alistGet s.instances cls with
    | none => .exc s [] (.runtimeError (toString cls ++ " is not registered."))
    | some (some inst) => .ok s [] inst
    | some none =>
      match alistGet s.deps cls with
      | none => .exc s [] (.keyError (toString cls))
      | some ds =>
        pseq (resolveDepsWith env (getInstance env fuel) s ds [])
          (fun s1 _depInstances =>
            match (env cls).ctorRaises with
            | some e =>
              if isTypeError e then
                .exc s1 [] (.runtimeErrorFrom ("Failed to instantiate " ++ toString cls) e)
              else .exc s1 [] e
            | none =>
              let inst : Inst := ⟨cls, s1.counter⟩
              let s2 : MState :=
                { s1 with instances := alistSet s1.instances cls (some inst)
                          counter := s1.counter + 1 }
              match (env cls).setupRaises with
              | some e =>
                if isTypeError e then
                  .exc s2 [.construct cls inst.seq, .setupFail cls]
                    (.runtimeErrorFrom ("Failed to instantiate " ++ toString cls) e)
                else .exc s2 [.construct cls inst.seq, .setupFail cls] e
              | none => .ok s2 [.construct cls inst.seq, .setupOk cls] inst)

/-- What `get` returns: the raw instance, or (when `get_fn` is set) the
result of calling `instance.get_fn()` (kept abstract; the tag records which
path was taken and which cached instance it came from). -/
inductive GetResult where
  | raw (i : Inst)
  | viaGetFn (i : Inst)
deriving DecidableEq, Repr

/-- `GlobalObjectManager.get`. -/
def managerGet (env : Env) (fuel : Nat) (s : MState) (cls : Cls) : PyResult GetResult :=
  match getInstance env fuel s cls with
  | .exc s1 tr1 e => .exc s1 tr1 e
  | .ok s1 tr1 i =>
    if (env cls).hasGetFn then .ok s1 tr1 (.viaGetFn i) else .ok s1 tr1 (.raw i)

/-- The loop of `startup`: `_get_instance` on each node in order. -/
def startupLoop (env : Env) (fuel : Nat) : MState → List Cls → PyResult Unit
  | s, [] => .ok s [] ()
  | s, c :: rest =>
    pseq (getInstance env fuel s c) (fun s1 _ => startupLoop env fuel s1 rest)

/-- `GlobalObjectManager.startup`: iterate `nx.topological_sort` (which, on
a cyclic graph, yields what Kahn emits and then raises
`NetworkXUnfeasible` — after the yielded nodes were already processed). -/
def startup (env : Env) (fuel : Nat) (s : MState) : PyResult Unit :=
  let order := kahn s.graph
  match startupLoop env fuel s order with
  | .exc s1 tr1 e => .exc s1 tr1 e
  | .ok s1 tr1 u =>
    if order.length == s.graph.nodes.length then .ok s1 tr1 u
    else .exc s1 tr1 (.unfeasible ("Graph contains a cycle or graph changed during iteration"))

/-- The loop of `shutdown` over the reversed topological order: skip absent
entries, otherwise `teardown()` then reset the entry to `None`.  A graph
node missing from `_instances` raises `KeyError`. -/
def shutdownLoop (env : Env) : MState → List Cls → PyResult Unit
  | s, [] => .ok s [] ()
  | s, c :: rest =>
    match alistGet s.instances c with
    | none => .exc s [] (.keyError (toString c))
    | some none => shutdownLoop env s rest
    | some (some _) =>
      match (env c).teardownRaises with
      | some e => .exc s [] e
      | none =>
        pseq (.ok { s with instances := alistSet s.instances c none } [Event.teardown c] ())
          (fun s1 _ => shutdownLoop env s1 rest)

/-- `GlobalObjectManager.shutdown`: `reversed(list(nx.topological_sort(g)))`
forces the whole generator first, so a cyclic graph raises before any
teardown. -/
def shutdown (env : Env) (s : MState) : PyResult Unit :=
  let order := kahn s.graph
  if order.length == s.graph.nodes.length then shutdownLoop env s order.reverse
  else .exc s [] (.unfeasible ("Graph contains a cycle or graph changed during iteration"))

/-- What `depends` returns: `Depends(instance.get_fn)` or
`Depends(lambda: instance)` — in both cases a zero-argument accessor that
closes over the instance resolved when `depends` itself ran. -/
inductive Injectable where
  | viaGetFn (i : Inst)
  | viaLambda (i : Inst)
deriving DecidableEq, Repr

/-- Invoking the returned accessor at request-handling time: it is a pure
closure over the already-resolved instance and touches no manager state. -/
def Injectable.call : Injectable → Inst
  | .viaGetFn i => i
  | .viaLambda i => i

/-- `GlobalObjectManager.depends`: note `self._get_instance(cls)` runs
eagerly, inside `depends` itself. -/
def depends (env : Env) (fuel : Nat) (s : MState) (cls : Cls) : PyResult Injectable :=
  match getInstance env fuel s cls with
  | .exc s1 tr1 e => .exc s1 tr1 e
  | .ok s1 tr1 i =>
    if (env cls).hasGetFn then .ok s1 tr1 (.viaGetFn i) else .ok s1 tr1 (.viaLambda i)

/-! ## The Proxy variant (`GlobalObjectProxy`) -/

/-- The wrapped payload of a proxy: its attributes and its items (both as
finite maps into opaque values, here `Nat`). -/
structure Payload where
  attrs : List (String × Nat)
  items : List (Nat × Nat)
deriving DecidableEq, Repr

/-- `GlobalObjectProxy.setup`: run the abstract `_setup_proxy_impl` (given
as its effect `impl` on the `_instance` slot), then raise `RuntimeError`
when the slot is still `None`. -/
def proxySetup (impl : Option Payload → Option Payload) (slot : Option Payload) :
    Except PyExc (Option Payload) :=
  match impl slot with
  | none => .error (.runtimeError ("The `_instance` attribute must be set in the `_setup_proxy_impl` method."))
  | some p => .ok (some p)

/-- `GlobalObjectProxy.__getattr__`: `getattr(self._instance, item)`
(an empty slot is `None`, which has no such attribute). -/
def proxyGetattr (slot : Option Payload) (item : String) : Except PyExc Nat :=
  match slot with
  | none => .error (.attributeError item)
  | some p =>
    match alistGet p.attrs item with
    | some v => .ok v
    | none => .error (.attributeError item)

/-- `GlobalObjectProxy.__getitem__`: `self._instance[item]`. -/
def proxyGetitem (slot : Option Payload) (item : Nat) : Except PyExc Nat :=
  match slot with
  | none => .error (.keyError (toString item))
  | some p =>
    match alistGet p.items item with
    | some v => .ok v
    | none => .error (.keyError (toString item))

/-! ## The settings object (`AppSettings`, `src/fastapi_sugar/settings.py`)

The loaded Dynaconf configuration is a finite map from setting names to
opaque values (`Nat`); attribute access on the Dynaconf object returns the
value or raises `AttributeError`, item access raises `KeyError`, and
`get(key, default)` returns the default for a missing key (the documented
Dynaconf behaviour the code relies on). -/

abbrev Config := List (String × Nat)

def dynaconfGetattr (cfg : Config) (name : String) : Except PyExc Nat :=
  match alistGet cfg name with
  | some v => .ok v
  | none => .error (.attributeError name)

def dynaconfGetitem (cfg : Config) (item : String) : Except PyExc Nat :=
  match alistGet cfg item with
  | some v => .ok v
  | none => .error (.keyError item)

/-- The tail of `AppSettings._generate_error_message` after the leading
`"Setting '" + key`. -/
def settingMsgTail (settingsFiles : List String) (pfx : String) (key : String) : String :=
  "' not found in configuration.\n" ++
  "Please check the following:\n" ++
  "1. The setting is defined in one of these files: " ++ String.intercalate ", " settingsFiles ++ "\n" ++
  "\tExample: " ++ key ++ " = 'value'\n" ++
  "2. If it's an environment variable, ensure it's prefixed with '" ++ pfx ++ "_'\n" ++
  "\tExample: export " ++ pfx.toUpper ++ "_" ++ key.toUpper ++ "='value'\n" ++
  "3. Check for typos in the setting name\n" ++
  "If the setting is optional, consider using the .get() method with a default value."

/-- `AppSettings._generate_error_message` (`self.prefix` is already
upper-cased at `__init__`). -/
def generateErrorMessage (settingsFiles : List String) (pfx : String) (key : String) : String :=
  "Setting '" ++ key ++ settingMsgTail settingsFiles pfx key

/-- `AppSettings.__getattr__`: delegate to the Dynaconf payload, turning an
`AttributeError` into `ConfigurationError(self._generate_error_message(name))`
(`from None`). -/
def appSettingsGetattr (settingsFiles : List String) (pfx : String) (cfg : Config)
    (name : String) : Except PyExc Nat :=
  match dynaconfGetattr cfg name with
  | .ok v => .ok v
  | .error (.attributeError _) =>
    .error (.configurationError (generateErrorMessage settingsFiles pfx name))
  | .error e => .error e

/-- `AppSettings.__getitem__`: as above but catching `KeyError`. -/
def appSettingsGetitem (settingsFiles : List String) (pfx : String) (cfg : Config)
    (item : String) : Except PyExc Nat :=
  match dynaconfGetitem cfg item with
  | .ok v => .ok v
  | .error (.keyError _) =>
    .error (.configurationError (generateErrorMessage settingsFiles pfx item))
  | .error e => .error e

/-- `settings.get(key, default)`: attribute lookup of `get` finds the
Dynaconf payload's bound method through the proxy forwarding, and
`Dynaconf.get` returns the default for a missing key without raising. -/
def appSettingsGet (cfg : Config) (key : String) (dflt : Nat) : Nat :=
  (alistGet cfg key).getD dflt

/-! ## Well-formedness and trace bookkeeping (proof infrastructure) -/

/-- Structural facts maintained by the registration API and assumed by the
ordering theorems: node/edge lists are duplicate-free, edges connect
existing nodes, every stored dependency is an edge of the graph, and every
registered class is a graph node. -/
abbrev WF (s : MState) : Prop :=
  s.graph.nodes.Nodup ∧ s.graph.edges.Nodup ∧
  (∀ e ∈ s.graph.edges, e.1 ∈ s.graph.nodes ∧ e.2 ∈ s.graph.nodes) ∧
  (∀ p ∈ s.deps, ∀ a ∈ p.2, (a, p.1) ∈ s.graph.edges) ∧
  (∀ p ∈ s.instances, p.1 ∈ s.graph.nodes)

/-- The state after constructing (and setting up) each class of `L` in
order, stamping consecutive sequence numbers. -/
def cacheAll (s : MState) : List Cls → MState
  | [] => s
  | c :: rest =>
    cacheAll
      { s with instances := alistSet s.instances c (some ⟨c, s.counter⟩)
               counter := s.counter + 1 } rest

/-- The event trace of constructing and setting up each class of `L` in
order, starting at sequence number `k`. -/
def freshTrace (k : Nat) : List Cls → List Event
  | [] => []
  | c :: rest => Event.construct c k :: Event.setupOk c :: freshTrace (k + 1) rest

/-- The classes of the constructor-call events of a trace, in order. -/
def constructSeq (tr : List Event) : List Cls :=
  tr.filterMap (fun ev => match ev with | .construct c _ => some c | _ => none)

/-- The classes of the teardown events of a trace, in order. -/
def teardownSeq (tr : List Event) : List Cls :=
  tr.filterMap (fun ev => match ev with | .teardown c => some c | _ => none)

def PyResult.errOf {α : Type} : PyResult α → Option PyExc
  | .ok _ _ _ => none
  | .exc _ _ e => some e

/-- How a call (initial state `s`, final state `s'`, trace `t`) treats the
cache entry of a fixed class `x`: either it never constructed `x` and left
its entry exactly as it was, or it constructed `x` (the entry was `None`
before) and the constructed instance is cached when the call returns — even
when the call raised. -/
def EntryEvolution (x : Cls) (s s' : MState) (t : List Event) : Prop :=
  (alistGet s'.instances x = alistGet s.instances x ∧ ∀ n, Event.construct x n ∉ t) ∨
  (∃ n, alistGet s.instances x = some none ∧
    alistGet s'.instances x = some (some ⟨x, n⟩) ∧ Event.construct x n ∈ t)

/-- A step relation (initial state, final state, trace) composes across
sequenced calls. -/
def Trans2 (P : MState → MState → List Event → Prop) : Prop :=
  ∀ s0 s1 s2 t1 t2, P s0 s1 t1 → P s1 s2 t2 → P s0 s2 (t1 ++ t2)

/-- A step relation holds of the empty step. -/
def Refl2 (P : MState → MState → List Event → Prop) : Prop :=
  ∀ s, P s s []

/-! ## Concrete scenarios used by counterexamples and witnesses -/

/-- Every class is well behaved: default `param_name`, no `get_fn`. -/
def envOK : Env := fun _ => ⟨none, none, none, some "dep", false⟩

/-- Every constructor raises `ValueError("boom")`. -/
def envCtorVal : Env := fun _ => ⟨some (.valueError "boom"), none, none, some "dep", false⟩

/-- Every `setup()` raises `ValueError("boom")`. -/
def envSetupVal : Env := fun _ => ⟨none, some (.valueError "boom"), none, some "dep", false⟩

/-- Class 0's `setup()` raises; every other class is well behaved. -/
def envPoison : Env := fun c =>
  if c = 0 then ⟨none, some (.valueError "boom"), none, some "dep", false⟩
  else ⟨none, none, none, some "dep", false⟩

/-- One registered class `0` with no dependencies. -/
def sA : MState := (register mstate0 0 []).st

/-- Classes `0` and `1`, independent, registered in that order. -/
def sAB : MState := (register sA 1 []).st

/-- Classes `0` and `1`, where `1` depends on `0`. -/
def sChain : MState := (register sA 1 [0]).st

/-- C1 scenario: class `0` registered with the (unregistered) dependency
`1`; registering `1` with dependency `0` then closes a cycle. -/
def c1s1 : MState := (register mstate0 0 [1]).st

def c1res : PyResult Unit := register c1s1 1 [0]

/-- C2 scenario: resolving class `0`, whose `setup()` raises. -/
def c2res : PyResult Inst := getInstance envSetupVal 2 sA 0

/-- C3 scenario: resolving class `0`, whose constructor raises a
non-`TypeError`. -/
def c3res : PyResult Inst := getInstance envCtorVal 2 sA 0

/-- C4/C6 scenario: a successful `startup()` on the chain. -/
def c4s1 : MState := (startup envOK 5 sChain).st

/-- C5 scenario: `get(0)` fails (its `setup()` raises) and poisons the
cache; `startup()` afterwards completes. -/
def c5poisoned : MState := (getInstance envPoison 5 sChain 0).st

def c5res : PyResult Unit := startup envPoison 5 c5poisoned

/-- C6 scenario: two independent classes constructed by `get` calls in
reverse registration order `1`, then `0`. -/
def c6s1 : MState := (getInstance envOK 2 sAB 1).st

def c6s2 : MState := (getInstance envOK 2 c6s1 0).st

def c6res : PyResult Unit := shutdown envOK c6s2

/-- C7 scenario: `depends(0)` called while `0` is not yet constructed. -/
def c7res : PyResult Injectable := depends envOK 2 sA 0

/-- C10 scenario: re-registering `0` after a successful startup, and
re-registering `0` with a dependency that closes a cycle. -/
def c10re : PyResult Unit := register c4s1 0 []

def c10cyc : PyResult Unit := register sChain 0 [1]

/-! ## Association-list lemmas -/

theorem alistGet_cons_pos {κ α : Type} [BEq κ] (p : κ × α) (d : List (κ × α)) (k : κ)
    (h : (p.1 == k) = true) : alistGet (p :: d) k = some p.2 := by
  unfold alistGet
  rw [List.find?_cons_of_pos (p := fun q => q.1 == k) d h]
  rfl

theorem alistGet_cons_neg {κ α : Type} [BEq κ] (p : κ × α) (d : List (κ × α)) (k : κ)
    (h : (p.1 == k) = false) : alistGet (p :: d) k = alistGet d k := by
  unfold alistGet
  rw [List.find?_cons_of_neg (p := fun q => q.1 == k) d (by simp [h])]

theorem alistGet_append {κ α : Type} [BEq κ] (d1 d2 : List (κ × α)) (k : κ) :
    alistGet (d1 ++ d2) k = (alistGet d1 k).or (alistGet d2 k) := by
  unfold alistGet
  rw [List.find?_append]
  cases List.find? (fun p => p.1 == k) d1 <;> simp

theorem alistGet_append_left {κ α : Type} [BEq κ] (d1 d2 : List (κ × α)) (k : κ)
    (h : alistGet d1 k = none) : alistGet (d1 ++ d2) k = alistGet d2 k := by
  rw [alistGet_append, h, Option.none_or]

theorem alistGet_eq_none {κ α : Type} [BEq κ] (d : List (κ × α)) (k : κ)
    (h : d.any (fun p => p.1 == k) = false) : alistGet d k = none := by
  induction d with
  | nil => simp [alistGet]
  | cons p rest ih =>
    simp only [List.any_cons, Bool.or_eq_false_iff] at h
    rw [alistGet_cons_neg p rest k h.1]
    exact ih h.2

theorem alistGet_map_setter_ne {κ α : Type} [BEq κ] [LawfulBEq κ] (d : List (κ × α))
    (k k' : κ) (v : α) (hkk : (k == k') = false) :
    alistGet (d.map (fun q => if q.1 == k then (k, v) else q)) k' = alistGet d k' := by
  induction d with
  | nil => rfl
  | cons q rest ih =>
    rw [List.map_cons]
    by_cases hq : (q.1 == k) = true
    · have hq1 : q.1 = k := by simpa using hq
      have h2 : (q.1 == k') = false := by rw [hq1]; exact hkk
      rw [if_pos hq, alistGet_cons_neg (k, v) _ k' hkk, alistGet_cons_neg q rest k' h2]
      exact ih
    · rw [if_neg hq]
      by_cases h2 : (q.1 == k') = true
      · rw [alistGet_cons_pos q _ k' h2, alistGet_cons_pos q rest k' h2]
      · have h2' : (q.1 == k') = false := by simpa using h2
        rw [alistGet_cons_neg q _ k' h2', alistGet_cons_neg q rest k' h2']
        exact ih

theorem alistGet_map_setter_self {κ α : Type} [BEq κ] [LawfulBEq κ] (d : List (κ × α))
    (k : κ) (v : α) (ha : d.any (fun q => q.1 == k) = true) :
    alistGet (d.map (fun q => if q.1 == k then (k, v) else q)) k = some v := by
  induction d with
  | nil => simp at ha
  | cons q rest ih =>
    rw [List.map_cons]
    by_cases hq : (q.1 == k) = true
    · rw [if_pos hq]
      exact alistGet_cons_pos (k, v) _ k (by simp)
    · have hq' : (q.1 == k) = false := by simpa using hq
      simp only [List.any_cons, hq', Bool.false_or] at ha
      rw [if_neg hq, alistGet_cons_neg q _ k hq']
      exact ih ha

theorem alistGet_set_self {κ α : Type} [BEq κ] [LawfulBEq κ] (d : List (κ × α)) (k : κ) (v : α) :
    alistGet (alistSet d k v) k = some v := by
  unfold alistSet
  by_cases ha : d.any (fun p => p.1 == k) = true
  · rw [if_pos ha]
    exact alistGet_map_setter_self d k v ha
  · have ha' : d.any (fun p => p.1 == k) = false := Bool.eq_false_iff.mpr ha
    rw [if_neg ha]
    rw [alistGet_append_left _ _ _ (alistGet_eq_none d k ha')]
    exact alistGet_cons_pos (k, v) [] k (by simp)

theorem alistGet_set_ne {κ α : Type} [BEq κ] [LawfulBEq κ] (d : List (κ × α)) (k k' : κ) (v : α)
    (h : ¬(k' = k)) : alistGet (alistSet d k v) k' = alistGet d k' := by
  have hkk : (k == k') = false := beq_eq_false_iff_ne.mpr (fun e => h e.symm)
  unfold alistSet
  by_cases ha : d.any (fun p => p.1 == k) = true
  · rw [if_pos ha]
    exact alistGet_map_setter_ne d k k' v hkk
  · rw [if_neg ha, alistGet_append, alistGet_cons_neg (k, v) [] k' hkk]
    exact Option.or_none

theorem mem_of_alistGet {κ α : Type} [BEq κ] [LawfulBEq κ] (d : List (κ × α)) (k : κ) (v : α)
    (h : alistGet d k = some v) : (k, v) ∈ d := by
  induction d with
  | nil => simp [alistGet] at h
  | cons q rest ih =>
    by_cases hq : (q.1 == k) = true
    · rw [alistGet_cons_pos q rest k hq] at h
      obtain ⟨a, b⟩ := q
      simp only at hq h
      have h1 : a = k := by simpa using hq
      have h2 : b = v := by simpa using h
      rw [h1, h2]
      exact List.mem_cons_self _ _
    · have hq' : (q.1 == k) = false := by simpa using hq
      rw [alistGet_cons_neg q rest k hq'] at h
      exact List.mem_cons_of_mem q (ih h)

theorem alistGet_isSome_of_set {κ α : Type} [BEq κ] [LawfulBEq κ] (d : List (κ × α))
    (k k' : κ) (v : α) (h : (alistGet d k').isSome) :
    (alistGet (alistSet d k v) k').isSome := by
  by_cases he : k' = k
  · subst he; rw [alistGet_set_self]; rfl
  · rw [alistGet_set_ne d k k' v he]; exact h

/-! ## Basic facts about `getInstance` -/

/-- Memoization: resolving an already-cached class touches nothing, emits no
event (no constructor call, no `setup()`), and returns the cached instance. -/
theorem getInstance_cached (env : Env) (fuel : Nat) (s : MState) (cls : Cls) (i : Inst)
    (h : alistGet s.instances cls = some (some i)) :
    getInstance env (fuel + 1) s cls = .ok s [] i := by
  simp [getInstance, h]

/-- A successful resolution leaves the resolved class cached with the
returned instance. -/
theorem getInstance_ok_cached (env : Env) (fuel : Nat) (s : MState) (cls : Cls)
    (s' : MState) (tr : List Event) (i : Inst)
    (h : getInstance env fuel s cls = .ok s' tr i) :
    alistGet s'.instances cls = some (some i) := by
  match fuel with
  | 0 => simp [getInstance] at h
  | fuel + 1 =>
    rw [getInstance] at h
    cases hc : alistGet s.instances cls with
    | none => rw [hc] at h; simp at h
    | some o =>
      cases o with
      | some j =>
        rw [hc] at h
        simp only at h
        injection h with h1 h2 h3
        subst h1; subst h3
        exact hc
      | none =>
        rw [hc] at h
        simp only at h
        cases hd : alistGet s.deps cls with
        | none => rw [hd] at h; simp at h
        | some ds =>
          rw [hd] at h
          simp only at h
          cases hr : resolveDepsWith env (getInstance env fuel) s ds [] with
          | exc s1 tr1 e => rw [hr] at h; simp [pseq] at h
          | ok s1 tr1 a =>
            rw [hr] at h
            cases hcr : (env cls).ctorRaises with
            | some e =>
              by_cases hte : isTypeError e = true <;> simp [pseq, hcr, hte] at h
            | none =>
              cases hsr : (env cls).setupRaises with
              | some e =>
                by_cases hte : isTypeError e = true <;> simp [pseq, hcr, hsr, hte] at h
              | none =>
                simp only [pseq, hcr, hsr] at h
                injection h with h1 h2 h3
                subst h1; subst h3
                exact alistGet_set_self _ _ _

/-! ## Generic step-relation transport through the interpreter -/

theorem pseq_step {P : MState → MState → List Event → Prop} (ht : Trans2 P)
    {α β : Type} (r : PyResult α) (f : MState → α → PyResult β) (s : MState)
    (hr : P s r.st r.trace)
    (hf : ∀ s' a, P s' (f s' a).st (f s' a).trace) :
    P s (pseq r f).st (pseq r f).trace := by
  cases r with
  | exc s1 t1 e => exact hr
  | ok s1 t1 a =>
    have h2 := hf s1 a
    cases hh : f s1 a with
    | exc s2 t2 e =>
      rw [hh] at h2
      simp only [PyResult.st, PyResult.trace] at h2 hr
      simpa [pseq, hh] using ht s s1 s2 t1 t2 hr h2
    | ok s2 t2 b =>
      rw [hh] at h2
      simp only [PyResult.st, PyResult.trace] at h2 hr
      simpa [pseq, hh] using ht s s1 s2 t1 t2 hr h2

theorem resolveDeps_step {P : MState → MState → List Event → Prop}
    (ht : Trans2 P) (hre : Refl2 P) (env : Env)
    (gi : MState → Cls → PyResult Inst)
    (hgi : ∀ s c, P s (gi s c).st (gi s c).trace) :
    ∀ (ds : List Cls) (s : MState) (acc : List (String × Inst)),
      P s (resolveDepsWith env gi s ds acc).st (resolveDepsWith env gi s ds acc).trace := by
  intro ds
  induction ds with
  | nil => intro s acc; exact hre s
  | cons dep rest ih =>
    intro s acc
    rw [resolveDepsWith]
    exact pseq_step ht _ _ _ (hgi s dep) (fun s' a => ih s' _)

/-- Transport of a step relation through `_get_instance`: it suffices that
the relation is reflexive, composes, and holds of the single
construct-and-cache step (which only happens for a class whose constructor
does not raise). -/
theorem getInstance_step {P : MState → MState → List Event → Prop}
    (ht : Trans2 P) (hre : Refl2 P) (env : Env)
    (hconstruct : ∀ (s1 : MState) (cls : Cls) (tl : Event),
      (env cls).ctorRaises = none →
      (tl = Event.setupOk cls ∨ tl = Event.setupFail cls) →
      P s1 { s1 with instances := alistSet s1.instances cls (some ⟨cls, s1.counter⟩)
                     counter := s1.counter + 1 }
        [Event.construct cls s1.counter, tl]) :
    ∀ fuel s cls, P s (getInstance env fuel s cls).st (getInstance env fuel s cls).trace := by
  intro fuel
  induction fuel with
  | zero => intro s cls; exact hre s
  | succ fuel ih =>
    intro s cls
    rw [getInstance]
    cases hc : alistGet s.instances cls with
    | none => exact hre s
    | some o =>
      cases o with
      | some j => exact hre s
      | none =>
        cases hd : alistGet s.deps cls with
        | none => exact hre s
        | some ds =>
          refine pseq_step ht _ _ _
            (resolveDeps_step ht hre env _ (fun s' c' => ih s' c') ds s []) ?_
          intro s1 a
          cases hcr : (env cls).ctorRaises with
          | some e =>
            by_cases hte : isTypeError e = true <;> simp only [hcr, hte] <;>
              first
                | exact hre s1
                | (rw [if_pos hte]; exact hre s1)
                | (rw [if_neg hte]; exact hre s1)
          | none =>
            cases hsr : (env cls).setupRaises with
            | some e =>
              by_cases hte : isTypeError e = true <;> simp only [hcr, hsr] <;>
                first
                  | (rw [if_pos hte]
                     exact hconstruct s1 cls (Event.setupFail cls) hcr (Or.inr rfl))
                  | (rw [if_neg hte]
                     exact hconstruct s1 cls (Event.setupFail cls) hcr (Or.inr rfl))
            | none =>
              simp only [hcr, hsr]
              exact hconstruct s1 cls (Event.setupOk cls) hcr (Or.inl rfl)

/-! ## Frame: `_get_instance` never touches the graph or dependency lists -/

theorem getInstance_frame (env : Env) (fuel : Nat) (s : MState) (cls : Cls) :
    (getInstance env fuel s cls).st.deps = s.deps ∧
    (getInstance env fuel s cls).st.graph = s.graph :=
  getInstance_step (P := fun s0 s1 _ => s1.deps = s0.deps ∧ s1.graph = s0.graph)
    (fun _ _ _ _ _ h1 h2 => ⟨h2.1.trans h1.1, h2.2.trans h1.2⟩)
    (fun _ => ⟨rfl, rfl⟩)
    env
    (fun _ _ _ _ _ => ⟨rfl, rfl⟩)
    fuel s cls

/-! ## No constructor call for a class whose constructor raises -/

theorem getInstance_noConstruct (env : Env) (x : Cls)
    (hx : (env x).ctorRaises.isSome = true) :
    ∀ fuel s cls n, Event.construct x n ∉ (getInstance env fuel s cls).trace := by
  have h := getInstance_step (P := fun _ _ t => ∀ n, Event.construct x n ∉ t)
    (fun _ _ _ t1 t2 h1 h2 n hmem => by
      rcases List.mem_append.mp hmem with hm | hm
      · exact h1 n hm
      · exact h2 n hm)
    (fun _ _ hmem => by simp at hmem)
    env
    (fun s1 cls tl hcr htl n hmem => by
      have hne : x ≠ cls := by
        intro he
        rw [he] at hx
        rw [hcr] at hx
        simp at hx
      rcases List.mem_cons.mp hmem with hm | hm
      · exact hne (by injection hm)
      · rcases List.mem_cons.mp hm with hm2 | hm2
        · rcases htl with h1 | h1 <;> rw [h1] at hm2 <;> exact Event.noConfusion hm2
        · simp at hm2)
  intro fuel s cls n
  exact h fuel s cls n

/-! ## The entry-evolution invariant -/

theorem entryEvo_trans (x : Cls) : Trans2 (EntryEvolution x) := by
  intro s0 s1 s2 t1 t2 h1 h2
  cases h1 with
  | inl h1 =>
    cases h2 with
    | inl h2 =>
      left
      refine ⟨h2.1.trans h1.1, ?_⟩
      intro n hmem
      rcases List.mem_append.mp hmem with hm | hm
      · exact h1.2 n hm
      · exact h2.2 n hm
    | inr h2 =>
      obtain ⟨n, hn1, hn2, hn3⟩ := h2
      right
      exact ⟨n, h1.1 ▸ hn1, hn2, List.mem_append.mpr (Or.inr hn3)⟩
  | inr h1 =>
    obtain ⟨n, hn1, hn2, hn3⟩ := h1
    cases h2 with
    | inl h2 =>
      right
      exact ⟨n, hn1, h2.1.trans hn2, List.mem_append.mpr (Or.inl hn3)⟩
    | inr h2 =>
      obtain ⟨m, hm1, _, _⟩ := h2
      rw [hn2] at hm1
      exact absurd hm1 (by simp)

theorem entryEvo_refl (x : Cls) : Refl2 (EntryEvolution x) := by
  intro s
  left
  exact ⟨rfl, by simp⟩

/-- The single construct-and-cache step, seen by a class `x` other than
the one being constructed: nothing about `x` changes. -/
theorem entry_seg_ne (x cls : Cls) (s1 : MState) (tl : Event) (hx : ¬(x = cls))
    (htl : tl = Event.setupOk cls ∨ tl = Event.setupFail cls) :
    EntryEvolution x s1
      { s1 with instances := alistSet s1.instances cls (some ⟨cls, s1.counter⟩)
                counter := s1.counter + 1 }
      [Event.construct cls s1.counter, tl] := by
  left
  refine ⟨alistGet_set_ne _ _ _ _ hx, ?_⟩
  intro n hmem
  rcases List.mem_cons.mp hmem with hm | hm
  · exact hx (by injection hm)
  · rcases List.mem_cons.mp hm with hm2 | hm2
    · rcases htl with h1 | h1 <;> rw [h1] at hm2 <;> exact Event.noConfusion hm2
    · simp at hm2

/-- The whole call, seen by the class `x` being constructed at its end:
`x`'s entry was `None` at the call's start and holds the freshly
constructed instance at its end. -/
theorem entry_seg_self (x : Cls) (s s1 : MState) (t1 : List Event) (tl : Event)
    (hc : alistGet s.instances x = some none) :
    EntryEvolution x s
      { s1 with instances := alistSet s1.instances x (some ⟨x, s1.counter⟩)
                counter := s1.counter + 1 }
      (t1 ++ [Event.construct x s1.counter, tl]) :=
  Or.inr ⟨s1.counter, hc, alistGet_set_self _ _ _, by simp⟩

/-- Unfolding of `_get_instance` in the construct case, with the
continuation written out (used to rewrite goals into `pseq` form). -/
theorem getInstance_eq_pseq (env : Env) (fuel : Nat) (s : MState) (cls : Cls) (ds : List Cls)
    (hc : alistGet s.instances cls = some none)
    (hd : alistGet s.deps cls = some ds) :
    getInstance env (fuel + 1) s cls =
      pseq (resolveDepsWith env (getInstance env fuel) s ds [])
        (fun s1 _a =>
          match (env cls).ctorRaises with
          | some e =>
            if isTypeError e then
              .exc s1 [] (.runtimeErrorFrom ("Failed to instantiate " ++ toString cls) e)
            else .exc s1 [] e
          | none =>
            match (env cls).setupRaises with
            | some e =>
              if isTypeError e then
                .exc { s1 with instances := alistSet s1.instances cls (some ⟨cls, s1.counter⟩)
                               counter := s1.counter + 1 }
                  [.construct cls s1.counter, .setupFail cls]
                  (.runtimeErrorFrom ("Failed to instantiate " ++ toString cls) e)
              else
                .exc { s1 with instances := alistSet s1.instances cls (some ⟨cls, s1.counter⟩)
                               counter := s1.counter + 1 }
                  [.construct cls s1.counter, .setupFail cls] e
            | none =>
              .ok { s1 with instances := alistSet s1.instances cls (some ⟨cls, s1.counter⟩)
                            counter := s1.counter + 1 }
                [.construct cls s1.counter, .setupOk cls] ⟨cls, s1.counter⟩) := by
  rw [getInstance, hc, hd]

theorem getInstance_entry (env : Env) (x : Cls) :
    ∀ fuel s cls,
      EntryEvolution x s (getInstance env fuel s cls).st (getInstance env fuel s cls).trace := by
  intro fuel
  induction fuel with
  | zero => intro s cls; exact entryEvo_refl x s
  | succ fuel ih =>
    intro s cls
    cases hc : alistGet s.instances cls with
    | none => simp only [getInstance, hc]; exact entryEvo_refl x s
    | some o =>
      cases o with
      | some j => simp only [getInstance, hc]; exact entryEvo_refl x s
      | none =>
        cases hd : alistGet s.deps cls with
        | none => simp only [getInstance, hc, hd]; exact entryEvo_refl x s
        | some ds =>
          rw [getInstance_eq_pseq env fuel s cls ds hc hd]
          have hdep := resolveDeps_step (entryEvo_trans x) (entryEvo_refl x) env
            (getInstance env fuel) (fun s' c' => ih s' c') ds s []
          cases hr : resolveDepsWith env (getInstance env fuel) s ds [] with
          | exc s1 t1 e =>
            rw [hr] at hdep
            simp only [PyResult.st, PyResult.trace] at hdep
            exact hdep
          | ok s1 t1 a =>
            rw [hr] at hdep
            simp only [PyResult.st, PyResult.trace] at hdep
            simp only [pseq]
            cases hcr : (env cls).ctorRaises with
            | some e =>
              dsimp only
              have hgoal : EntryEvolution x s s1 (t1 ++ []) :=
                entryEvo_trans x s s1 s1 t1 [] hdep (entryEvo_refl x s1)
              by_cases hte : isTypeError e = true
              · rw [if_pos hte]; exact hgoal
              · rw [if_neg hte]; exact hgoal
            | none =>
              cases hsr : (env cls).setupRaises with
              | some e =>
                dsimp only
                by_cases hx : x = cls
                · subst hx
                  have hgoal := entry_seg_self x s s1 t1 (Event.setupFail x) hc
                  by_cases hte : isTypeError e = true
                  · rw [if_pos hte]; exact hgoal
                  · rw [if_neg hte]; exact hgoal
                · have hgoal := entryEvo_trans x s s1 _ t1 _ hdep
                    (entry_seg_ne x cls s1 (Event.setupFail cls) hx (Or.inr rfl))
                  by_cases hte : isTypeError e = true
                  · rw [if_pos hte]; exact hgoal
                  · rw [if_neg hte]; exact hgoal
              | none =>
                by_cases hx : x = cls
                · subst hx
                  exact entry_seg_self x s s1 t1 (Event.setupOk x) hc
                · exact entryEvo_trans x s s1 _ t1 _ hdep
                    (entry_seg_ne x cls s1 (Event.setupOk cls) hx (Or.inl rfl))

theorem getInstance_preserves_cached (env : Env) (fuel : Nat) (s : MState) (cls x : Cls)
    (i : Inst) (h : alistGet s.instances x = some (some i)) :
    alistGet (getInstance env fuel s cls).st.instances x = some (some i) := by
  have he := getInstance_entry env x fuel s cls
  cases he with
  | inl he => rw [he.1]; exact h
  | inr he =>
    obtain ⟨n, hn1, _, _⟩ := he
    rw [h] at hn1
    exact absurd hn1 (by simp)

/-! ## The startup loop -/

theorem startupLoop_step {P : MState → MState → List Event → Prop}
    (ht : Trans2 P) (hre : Refl2 P) (env : Env) (fuel : Nat)
    (hgi : ∀ s c, P s (getInstance env fuel s c).st (getInstance env fuel s c).trace) :
    ∀ (L : List Cls) (s : MState),
      P s (startupLoop env fuel s L).st (startupLoop env fuel s L).trace := by
  intro L
  induction L with
  | nil => intro s; exact hre s
  | cons c rest ih =>
    intro s
    rw [startupLoop]
    exact pseq_step ht _ _ _ (hgi s c) (fun s' a => ih s')

theorem startupLoop_preserves_cached (env : Env) (fuel : Nat) (L : List Cls) (s : MState)
    (x : Cls) (i : Inst) (h : alistGet s.instances x = some (some i)) :
    alistGet (startupLoop env fuel s L).st.instances x = some (some i) :=
  startupLoop_step
    (P := fun s0 s1 _ => ∀ x i,
      alistGet s0.instances x = some (some i) → alistGet s1.instances x = some (some i))
    (fun _ _ _ _ _ h1 h2 x i hx => h2 x i (h1 x i hx))
    (fun _ _ _ hx => hx)
    env fuel
    (fun s c x i hx => getInstance_preserves_cached env fuel s c x i hx)
    L s x i h

theorem startupLoop_frame (env : Env) (fuel : Nat) (L : List Cls) (s : MState) :
    (startupLoop env fuel s L).st.deps = s.deps ∧
    (startupLoop env fuel s L).st.graph = s.graph :=
  startupLoop_step (P := fun s0 s1 _ => s1.deps = s0.deps ∧ s1.graph = s0.graph)
    (fun _ _ _ _ _ h1 h2 => ⟨h2.1.trans h1.1, h2.2.trans h1.2⟩)
    (fun _ => ⟨rfl, rfl⟩)
    env fuel
    (fun s c => getInstance_frame env fuel s c)
    L s

/-- After a successful run of the startup loop, every processed class is
cached. -/
theorem startupLoop_ok_cached (env : Env) (fuel : Nat) :
    ∀ (L : List Cls) (s s' : MState) (tr : List Event) (u : Unit),
      startupLoop env fuel s L = .ok s' tr u →
      ∀ c ∈ L, ∃ i, alistGet s'.instances c = some (some i) := by
  intro L
  induction L with
  | nil => intro s s' tr u h c hc; simp at hc
  | cons c0 rest ih =>
    intro s s' tr u h c hc
    rw [startupLoop] at h
    cases hg : getInstance env fuel s c0 with
    | exc s1 t1 e => rw [hg] at h; simp [pseq] at h
    | ok s1 t1 i0 =>
      rw [hg] at h
      simp only [pseq] at h
      cases hl : startupLoop env fuel s1 rest with
      | exc s2 t2 e => rw [hl] at h; simp at h
      | ok s2 t2 u2 =>
        rw [hl] at h
        injection h with h1 h2 h3
        subst h1
        rcases List.mem_cons.mp hc with rfl | hmem
        · have hcache := getInstance_ok_cached env fuel s c s1 t1 i0 hg
          have hpres := startupLoop_preserves_cached env fuel rest s1 c i0 hcache
          rw [hl] at hpres
          exact ⟨i0, hpres⟩
        · exact ih s1 s2 t2 u2 hl c hmem

/-- When every class of the list is already cached, the startup loop is a
no-op: same state, no events. -/
theorem startupLoop_noop (env : Env) (fuel : Nat) (hf : 1 ≤ fuel) :
    ∀ (L : List Cls) (s : MState),
      (∀ c ∈ L, ∃ i, alistGet s.instances c = some (some i)) →
      startupLoop env fuel s L = .ok s [] () := by
  intro L
  induction L with
  | nil => intro s _; rfl
  | cons c0 rest ih =>
    intro s h
    obtain ⟨i, hi⟩ := h c0 (by simp)
    obtain ⟨fuel', rfl⟩ : ∃ f', fuel = f' + 1 := ⟨fuel - 1, by omega⟩
    have hrest := ih s (fun c hc => h c (List.mem_cons_of_mem _ hc))
    rw [startupLoop, getInstance_cached env fuel' s c0 i hi]
    simp [pseq, hrest]

/-! ## C2: what a failed resolution leaves behind (amended theorem) -/

/-- C2 (amended): when resolution of `cls` fails, either `cls` was never
constructed during the call and its cache entry is exactly as before (in
particular still absent when it was absent — so a constructor failure
leaves the entry absent and a later `get` retries from scratch), or `cls`
was constructed and its `setup()` raised, and then the constructed,
never-set-up instance REMAINS cached.  In particular, when `cls`'s
constructor raises, no construction of `cls` happens at all and the entry
is unchanged. -/
theorem C2_amended (env : Env) (fuel : Nat) (s : MState) (cls : Cls) (s' : MState)
    (tr : List Event) (ex : PyExc)
    (h : getInstance env fuel s cls = .exc s' tr ex) :
    ((alistGet s'.instances cls = alistGet s.instances cls ∧
        ∀ n, Event.construct cls n ∉ tr) ∨
      (∃ n, alistGet s.instances cls = some none ∧
        alistGet s'.instances cls = some (some ⟨cls, n⟩) ∧ Event.construct cls n ∈ tr)) ∧
    ((env cls).ctorRaises.isSome = true →
      alistGet s'.instances cls = alistGet s.instances cls ∧
        ∀ n, Event.construct cls n ∉ tr) := by
  have he := getInstance_entry env cls fuel s cls
  rw [h] at he
  simp only [PyResult.st, PyResult.trace] at he
  refine ⟨he, ?_⟩
  intro hx
  cases he with
  | inl he => exact he
  | inr he =>
    obtain ⟨n, _, _, hmem⟩ := he
    have hnc := getInstance_noConstruct env cls hx fuel s cls n
    rw [h] at hnc
    simp only [PyResult.trace] at hnc
    exact absurd hmem hnc

/-- C2 (witness): the amended theorem applied to the setup-failure
scenario. -/
theorem C2_witness :
    ((alistGet c2res.st.instances 0 = alistGet sA.instances 0 ∧
        ∀ n, Event.construct 0 n ∉ c2res.trace) ∨
      (∃ n, alistGet sA.instances 0 = some none ∧
        alistGet c2res.st.instances 0 = some (some ⟨0, n⟩) ∧
        Event.construct 0 n ∈ c2res.trace)) ∧
    ((envSetupVal 0).ctorRaises.isSome = true →
      alistGet c2res.st.instances 0 = alistGet sA.instances 0 ∧
        ∀ n, Event.construct 0 n ∉ c2res.trace) :=
  C2_amended envSetupVal 2 sA 0 c2res.st c2res.trace (.valueError "boom") (by decide)

/-! ## C4: memoization and idempotent startup -/

/-- C4: resolving an already-cached class returns the memoized instance
with no constructor or `setup()` call and no state change; and after a
successful `startup()`, running `startup()` again is a perfect no-op (same
state, no lifecycle events), so `get(id)` after `startup()` triggers no new
construction. -/
theorem C4_theorem :
    (∀ (env : Env) (fuel : Nat) (s : MState) (cls : Cls) (i : Inst),
      alistGet s.instances cls = some (some i) →
      getInstance env (fuel + 1) s cls = .ok s [] i) ∧
    (∀ (env : Env) (fuel : Nat) (s s' : MState) (tr : List Event),
      startup env fuel s = .ok s' tr () →
      startup env fuel s' = .ok s' [] ()) := by
  constructor
  · exact getInstance_cached
  · intro env fuel s s' tr h
    simp only [startup] at h ⊢
    cases hl : startupLoop env fuel s (kahn s.graph) with
    | exc s1 t1 e => rw [hl] at h; simp at h
    | ok s1 t1 u =>
      rw [hl] at h
      dsimp only at h
      by_cases hlen : ((kahn s.graph).length == s.graph.nodes.length) = true
      · rw [if_pos hlen] at h
        injection h with h1 h2 h3
        subst h1
        have hframe := startupLoop_frame env fuel (kahn s.graph) s
        rw [hl] at hframe
        simp only [PyResult.st] at hframe
        have hall := startupLoop_ok_cached env fuel (kahn s.graph) s s1 t1 u hl
        cases fuel with
        | zero =>
          cases hk : kahn s.graph with
          | nil =>
            rw [hk] at hlen
            rw [hframe.2, hk]
            simp only [startupLoop]
            rw [if_pos hlen]
          | cons c rest =>
            rw [hk, startupLoop] at hl
            simp [getInstance, pseq] at hl
        | succ f' =>
          have hnoop := startupLoop_noop env (f' + 1) (by omega) (kahn s.graph) s1 hall
          rw [hframe.2, hnoop]
          dsimp only
          rw [if_pos hlen]
      · rw [if_neg hlen] at h
        simp at h

/-- C4 (witness): both parts at the chain scenario. -/
theorem C4_witness :
    getInstance envOK 3 c4s1 1 = .ok c4s1 [] ⟨1, 1⟩ ∧
    startup envOK 5 c4s1 = .ok c4s1 [] () :=
  ⟨C4_theorem.1 envOK 2 c4s1 1 ⟨1, 1⟩ (by decide),
   C4_theorem.2 envOK 5 sChain c4s1 (startup envOK 5 sChain).trace (by decide)⟩

/-! ## C7: `depends` resolves eagerly -/

/-- C7 (counterexample): with class `0` registered but not yet constructed,
calling `depends(0)` itself runs the constructor and `setup()` (the
construct/setup events happen during the `depends` call) and caches the
instance; the returned accessor is a pure closure over the already-resolved
instance. -/
theorem C7_counterexample :
    alistGet sA.instances 0 = some none ∧
    c7res = .ok c7res.st [Event.construct 0 0, Event.setupOk 0] (.viaLambda ⟨0, 0⟩) ∧
    alistGet c7res.st.instances 0 = some (some ⟨0, 0⟩) := by
  decide

/-- C7 (amended): `depends(id)` resolves the instance eagerly, at the time
`depends` itself is called: when it returns, the instance is already
cached, and the returned zero-argument accessor (`Injectable.call`, a pure
function touching no manager state) merely returns that instance.  When the
instance was already cached, `depends` performs no construction and no
state change at all. -/
theorem C7_amended (env : Env) (fuel : Nat) (s : MState) (cls : Cls) (s' : MState)
    (tr : List Event) (d : Injectable)
    (h : depends env fuel s cls = .ok s' tr d) :
    (∃ i, alistGet s'.instances cls = some (some i) ∧ d.call = i) ∧
    (∀ i0, alistGet s.instances cls = some (some i0) →
      s' = s ∧ tr = [] ∧ d.call = i0) := by
  unfold depends at h
  cases hg : getInstance env fuel s cls with
  | exc s1 t1 e => rw [hg] at h; simp at h
  | ok s1 t1 i =>
    rw [hg] at h
    dsimp only at h
    have hcache := getInstance_ok_cached env fuel s cls s1 t1 i hg
    by_cases hgf : (env cls).hasGetFn = true
    · rw [if_pos hgf] at h
      injection h with h1 h2 h3
      subst h1; subst h2; subst h3
      constructor
      · exact ⟨i, hcache, rfl⟩
      · intro i0 h0
        cases fuel with
        | zero => rw [getInstance] at hg; simp at hg
        | succ f' =>
          rw [getInstance_cached env f' s cls i0 h0] at hg
          injection hg with g1 g2 g3
          exact ⟨g1.symm, g2.symm, g3.symm⟩
    · rw [if_neg hgf] at h
      injection h with h1 h2 h3
      subst h1; subst h2; subst h3
      constructor
      · exact ⟨i, hcache, rfl⟩
      · intro i0 h0
        cases fuel with
        | zero => rw [getInstance] at hg; simp at hg
        | succ f' =>
          rw [getInstance_cached env f' s cls i0 h0] at hg
          injection hg with g1 g2 g3
          exact ⟨g1.symm, g2.symm, g3.symm⟩

/-- C7 (witness): the amended theorem applied after construction. -/
theorem C7_witness :
    (∃ i, alistGet c7res.st.instances 0 = some (some i) ∧
      Injectable.call (.viaLambda ⟨0, 0⟩) = i) ∧
    (∀ i0, alistGet sA.instances 0 = some (some i0) →
      c7res.st = sA ∧ [Event.construct 0 0, Event.setupOk 0] = [] ∧
        Injectable.call (.viaLambda ⟨0, 0⟩) = i0) :=
  C7_amended envOK 2 sA 0 c7res.st [Event.construct 0 0, Event.setupOk 0]
    (.viaLambda ⟨0, 0⟩) (by decide)

/-! ## Correctness of the embedded `nx.topological_sort` (Kahn loop) -/

theorem indeg_eq_zero_iff (edges : List (Cls × Cls)) (b : Cls) :
    indeg edges b = 0 ↔ ∀ e ∈ edges, ¬(e.2 = b) := by
  unfold indeg
  rw [List.length_eq_zero, List.filter_eq_nil_iff]
  simp

theorem indeg_le_of_sublist (e1 e2 : List (Cls × Cls)) (h : e1.Sublist e2) (c : Cls) :
    indeg e1 c ≤ indeg e2 c :=
  (h.filter _).length_le

/-- Invariant proof for the Kahn loop: starting from a consistent
configuration, the emitted list is duplicate-free, contained in the node
set, and topologically sorted (for every edge whose target is emitted, the
source is emitted strictly before it). -/
theorem kahnGo_invariant (E0 : List (Cls × Cls)) (nodes : List Cls)
    (hE0 : E0.Nodup) (hcl : ∀ e ∈ E0, e.1 ∈ nodes ∧ e.2 ∈ nodes) :
    ∀ (fuel : Nat) (edges : List (Cls × Cls)) (stack acc : List Cls),
      edges = E0.filter (fun e => !(decide (e.1 ∈ acc))) →
      (∀ c ∈ stack, indeg edges c = 0) →
      (∀ b ∈ acc, ∀ a, (a, b) ∈ E0 → a ∈ acc ∧ [b, a].Sublist acc) →
      acc.Nodup →
      (∀ c ∈ stack, c ∉ acc) →
      stack.Nodup →
      (∀ c ∈ stack, c ∈ nodes) →
      (∀ c ∈ acc, c ∈ nodes) →
      (kahnGo fuel edges stack acc).Nodup ∧
      (∀ c ∈ kahnGo fuel edges stack acc, c ∈ nodes) ∧
      (∀ a b, (a, b) ∈ E0 → b ∈ kahnGo fuel edges stack acc →
        [a, b].Sublist (kahnGo fuel edges stack acc)) := by
  intro fuel
  induction fuel with
  | zero =>
    intro edges stack acc hI1 hI2 hI3 hI4 hI5 hI6 hI7 hI8
    refine ⟨by simpa [kahnGo, List.nodup_reverse] using hI4, ?_, ?_⟩
    · intro c hc
      rw [show kahnGo 0 edges stack acc = acc.reverse from rfl, List.mem_reverse] at hc
      exact hI8 c hc
    · intro a b hab hb
      rw [show kahnGo 0 edges stack acc = acc.reverse from rfl] at hb ⊢
      rw [List.mem_reverse] at hb
      obtain ⟨_, hba⟩ := hI3 b hb a hab
      simpa using hba.reverse
  | succ fuel ih =>
    intro edges stack acc hI1 hI2 hI3 hI4 hI5 hI6 hI7 hI8
    cases stack with
    | nil =>
      refine ⟨by simpa [kahnGo, List.nodup_reverse] using hI4, ?_, ?_⟩
      · intro c hc
        rw [show kahnGo (fuel + 1) edges [] acc = acc.reverse from rfl, List.mem_reverse] at hc
        exact hI8 c hc
      · intro a b hab hb
        rw [show kahnGo (fuel + 1) edges [] acc = acc.reverse from rfl] at hb ⊢
        rw [List.mem_reverse] at hb
        obtain ⟨_, hba⟩ := hI3 b hb a hab
        simpa using hba.reverse
    | cons n rest =>
      have hn0 : indeg edges n = 0 := hI2 n (by simp)
      have hnacc : n ∉ acc := hI5 n (by simp)
      have hedgesub : edges.Sublist E0 := by rw [hI1]; exact List.filter_sublist E0
      have hedNodup : edges.Nodup := by rw [hI1]; exact hE0.filter _
      have heq : kahnGo (fuel + 1) edges (n :: rest) acc =
          kahnGo fuel (edges.filter (fun e => !(e.1 == n)))
            (rest ++ ((edges.filter (fun e => e.1 == n)).map Prod.snd).filter
              (fun c => indeg (edges.filter (fun e => !(e.1 == n))) c == 0))
            (n :: acc) := rfl
      rw [heq]
      have hsub' : (edges.filter (fun e => !(e.1 == n))).Sublist edges := List.filter_sublist edges
      have hchild : ∀ c,
          c ∈ ((edges.filter (fun e => e.1 == n)).map Prod.snd).filter
            (fun c => indeg (edges.filter (fun e => !(e.1 == n))) c == 0) →
          (n, c) ∈ edges ∧ indeg (edges.filter (fun e => !(e.1 == n))) c = 0 := by
        intro c hc
        rw [List.mem_filter] at hc
        obtain ⟨hcm, hc0⟩ := hc
        rw [List.mem_map] at hcm
        obtain ⟨e, hef, hsnd⟩ := hcm
        rw [List.mem_filter] at hef
        obtain ⟨hee, he1⟩ := hef
        have he1' : e.1 = n := by simpa using he1
        have : e = (n, c) := by
          obtain ⟨e1, e2⟩ := e
          simp only at he1' hsnd
          rw [he1', hsnd]
        rw [this] at hee
        exact ⟨hee, by simpa using hc0⟩
      apply ih
      · rw [hI1, List.filter_filter]
        apply List.filter_congr
        intro e _
        by_cases h1 : e.1 = n <;> by_cases h2 : e.1 ∈ acc <;>
          simp [h1, h2, List.mem_cons]
      · intro c hc
        rcases List.mem_append.mp hc with hm | hm
        · have := hI2 c (List.mem_cons_of_mem _ hm)
          have hle := indeg_le_of_sublist _ _ hsub' c
          omega
        · exact (hchild c hm).2
      · intro b hb a hab
        rcases List.mem_cons.mp hb with rfl | hbacc
        · have haacc : a ∈ acc := by
            by_contra hna
            have hmem : (a, b) ∈ edges := by
              rw [hI1, List.mem_filter]
              exact ⟨hab, by simpa using hna⟩
            exact (indeg_eq_zero_iff edges b).mp hn0 (a, b) hmem rfl
          exact ⟨List.mem_cons_of_mem _ haacc,
            List.Sublist.cons₂ b (List.singleton_sublist.mpr haacc)⟩
        · obtain ⟨ha', hsubl⟩ := hI3 b hbacc a hab
          exact ⟨List.mem_cons_of_mem _ ha', hsubl.cons n⟩
      · exact List.nodup_cons.mpr ⟨hnacc, hI4⟩
      · intro c hc
        rcases List.mem_append.mp hc with hm | hm
        · rw [List.mem_cons]
          push_neg
          have hrest : c ∉ acc := hI5 c (List.mem_cons_of_mem _ hm)
          have hne : ¬(c = n) := by
            intro hcn
            rw [hcn] at hm
            exact (List.nodup_cons.mp hI6).1 hm
          exact ⟨hne, hrest⟩
        · obtain ⟨hedge, _⟩ := hchild c hm
          rw [List.mem_cons]
          push_neg
          constructor
          · intro hcn
            rw [hcn] at hedge
            exact (indeg_eq_zero_iff edges n).mp hn0 (n, n) hedge rfl
          · intro hcacc
            have := (hI3 c hcacc n (hedgesub.subset hedge)).1
            exact hnacc this
      · rw [List.nodup_append]
        refine ⟨(List.nodup_cons.mp hI6).2, ?_, ?_⟩
        · apply List.Nodup.filter
          apply List.Nodup.map_on
          · intro x hx y hy hxy
            rw [List.mem_filter] at hx hy
            obtain ⟨x1, x2⟩ := x
            obtain ⟨y1, y2⟩ := y
            have hx1 : x1 = n := by simpa using hx.2
            have hy1 : y1 = n := by simpa using hy.2
            simp only at hxy
            rw [hx1, hy1, hxy]
          · exact hedNodup.filter _
        · intro c hc1 hc2
          obtain ⟨hedge, _⟩ := hchild c hc2
          have h0 : indeg edges c = 0 := hI2 c (List.mem_cons_of_mem _ hc1)
          exact (indeg_eq_zero_iff edges c).mp h0 (n, c) hedge rfl
      · intro c hc
        rcases List.mem_append.mp hc with hm | hm
        · exact hI7 c (List.mem_cons_of_mem _ hm)
        · exact (hcl (n, c) (hedgesub.subset (hchild c hm).1)).2
      · intro c hc
        rcases List.mem_cons.mp hc with rfl | hm
        · exact hI7 c (by simp)
        · exact hI8 c hm

/-- `nx.topological_sort` on a well-formed graph emits a duplicate-free
sequence of nodes in which every edge's source precedes its target. -/
theorem kahn_sorted (g : Graph) (hnd : g.nodes.Nodup) (hend : g.edges.Nodup)
    (hcl : ∀ e ∈ g.edges, e.1 ∈ g.nodes ∧ e.2 ∈ g.nodes) :
    (kahn g).Nodup ∧ (∀ c ∈ kahn g, c ∈ g.nodes) ∧
    (∀ a b, (a, b) ∈ g.edges → b ∈ kahn g → [a, b].Sublist (kahn g)) := by
  unfold kahn
  apply kahnGo_invariant g.edges g.nodes hend hcl
  · simp
  · intro c hc
    simpa using (List.mem_filter.mp hc).2
  · intro b hb; simp at hb
  · exact List.nodup_nil
  · intro c _; simp
  · exact hnd.filter _
  · intro c hc
    exact (List.mem_filter.mp hc).1
  · intro c hc; simp at hc

/-- When the Kahn loop emits as many nodes as the graph has (the
`is_directed_acyclic_graph` check), it emits every node. -/
theorem kahn_complete (g : Graph) (hnd : g.nodes.Nodup) (hend : g.edges.Nodup)
    (hcl : ∀ e ∈ g.edges, e.1 ∈ g.nodes ∧ e.2 ∈ g.nodes)
    (hlen : (kahn g).length = g.nodes.length) : ∀ c ∈ g.nodes, c ∈ kahn g := by
  obtain ⟨hknd, hsub, _⟩ := kahn_sorted g hnd hend hcl
  have hsp : List.Subperm (kahn g) g.nodes := List.subperm_of_subset hknd (fun c hc => hsub c hc)
  have hperm : List.Perm (kahn g) g.nodes := hsp.perm_of_length_le (by omega)
  intro c hc
  exact hperm.mem_iff.mpr hc

/-- In a duplicate-free list split as `l1 ++ b :: l2`, an element that
occurs strictly before `b` lies in `l1`. -/
theorem sublist_pair_before {a b : Cls} :
    ∀ (l1 : List Cls) {l2 L : List Cls}, L.Nodup → [a, b].Sublist L →
      L = l1 ++ b :: l2 → a ∈ l1 := by
  intro l1
  induction l1 with
  | nil =>
    intro l2 L hnd hsub hsplit
    subst hsplit
    exfalso
    cases hsub with
    | cons _ h =>
      have : b ∈ l2 := (List.singleton_sublist.mp (List.sublist_of_cons_sublist h))
      exact (List.nodup_cons.mp hnd).1 this
    | cons₂ _ h =>
      have : a ∈ l2 := List.singleton_sublist.mp h
      exact (List.nodup_cons.mp hnd).1 this
  | cons x l1' ih =>
    intro l2 L hnd hsub hsplit
    subst hsplit
    cases hsub with
    | cons _ h => exact List.mem_cons_of_mem _ (ih (List.nodup_cons.mp hnd).2 h rfl)
    | cons₂ _ h => exact List.mem_cons_self _ _

/-! ## Bookkeeping for fresh startups -/

theorem cacheAll_frame (L : List Cls) : ∀ (s : MState),
    (cacheAll s L).deps = s.deps ∧ (cacheAll s L).graph = s.graph := by
  induction L with
  | nil => intro s; exact ⟨rfl, rfl⟩
  | cons c rest ih =>
    intro s
    rw [cacheAll]
    exact ih _

theorem cacheAll_keeps (L : List Cls) : ∀ (s : MState) (c : Cls) (n : Nat),
    alistGet s.instances c = some (some ⟨c, n⟩) →
    ∃ m, alistGet (cacheAll s L).instances c = some (some ⟨c, m⟩) := by
  induction L with
  | nil => intro s c n h; exact ⟨n, h⟩
  | cons x rest ih =>
    intro s c n h
    rw [cacheAll]
    by_cases hx : c = x
    · subst hx
      exact ih _ c s.counter (alistGet_set_self _ _ _)
    · exact ih _ c n (by rw [alistGet_set_ne _ _ _ _ hx]; exact h)

theorem cacheAll_get (L : List Cls) : ∀ (s : MState) (c : Cls), c ∈ L →
    ∃ n, alistGet (cacheAll s L).instances c = some (some ⟨c, n⟩) := by
  induction L with
  | nil => intro s c hc; simp at hc
  | cons x rest ih =>
    intro s c hc
    rw [cacheAll]
    rcases List.mem_cons.mp hc with rfl | hm
    · exact cacheAll_keeps rest _ c s.counter (alistGet_set_self _ _ _)
    · exact ih _ c hm

theorem constructSeq_freshTrace (K : List Cls) : ∀ k, constructSeq (freshTrace k K) = K := by
  induction K with
  | nil => intro k; rfl
  | cons c rest ih =>
    intro k
    have hrest := ih (k + 1)
    simp only [constructSeq] at hrest
    simp only [freshTrace, constructSeq, List.filterMap_cons]
    rw [hrest]

theorem freshTrace_mem_construct (K : List Cls) : ∀ (k : Nat) (c : Cls), c ∈ K →
    ∃ n, Event.construct c n ∈ freshTrace k K := by
  induction K with
  | nil => intro k c hc; simp at hc
  | cons x rest ih =>
    intro k c hc
    rcases List.mem_cons.mp hc with rfl | hm
    · exact ⟨k, by simp [freshTrace]⟩
    · obtain ⟨n, hn⟩ := ih (k + 1) c hm
      exact ⟨n, by simp [freshTrace, hn]⟩

theorem freshTrace_sublist (K : List Cls) : ∀ (k : Nat) (a b : Cls), [a, b].Sublist K →
    ∃ na nb, [Event.construct a na, Event.setupOk a,
      Event.construct b nb].Sublist (freshTrace k K) := by
  induction K with
  | nil => intro k a b h; exact absurd h (by simp)
  | cons x rest ih =>
    intro k a b h
    cases h with
    | cons _ h' =>
      obtain ⟨na, nb, hs⟩ := ih (k + 1) a b h'
      exact ⟨na, nb, (hs.cons _).cons _⟩
    | cons₂ _ h' =>
      have hb : b ∈ rest := List.singleton_sublist.mp h'
      obtain ⟨nb, hnb⟩ := freshTrace_mem_construct rest (k + 1) b hb
      exact ⟨k, nb, List.Sublist.cons₂ _ (List.Sublist.cons₂ _
        (List.singleton_sublist.mpr hnb))⟩

theorem getInstance_eq_notreg (env : Env) (f : Nat) (s : MState) (cls : Cls)
    (hc : alistGet s.instances cls = none) :
    getInstance env (f + 1) s cls =
      .exc s [] (.runtimeError (toString cls ++ " is not registered.")) := by
  rw [getInstance, hc]

theorem getInstance_eq_keyerr (env : Env) (f : Nat) (s : MState) (cls : Cls)
    (hc : alistGet s.instances cls = some none) (hd : alistGet s.deps cls = none) :
    getInstance env (f + 1) s cls = .exc s [] (.keyError (toString cls)) := by
  rw [getInstance, hc, hd]

/-- When every dependency is already cached, the dependency loop is a
no-op on the state and the trace (the cached instances are just collected). -/
theorem resolveDeps_cached_ok (env : Env) (f : Nat) :
    ∀ (ds : List Cls) (s : MState) (acc : List (String × Inst)),
      (∀ a ∈ ds, ∃ ia, alistGet s.instances a = some (some ia)) →
      (ds = [] ∨ 1 ≤ f) →
      ∃ acc', resolveDepsWith env (getInstance env f) s ds acc = .ok s [] acc' := by
  intro ds
  induction ds with
  | nil => intro s acc _ _; exact ⟨acc, rfl⟩
  | cons a rest ih =>
    intro s acc hcached hf
    have hf1 : 1 ≤ f := hf.resolve_left (by simp)
    obtain ⟨f', rfl⟩ : ∃ f'', f = f'' + 1 := ⟨f - 1, by omega⟩
    obtain ⟨ia, hia⟩ := hcached a (by simp)
    obtain ⟨acc', hacc'⟩ := ih s
      (match (env a).paramName with
        | none => acc
        | some pn => alistSet acc pn ia)
      (fun x hx => hcached x (List.mem_cons_of_mem _ hx)) (Or.inr hf1)
    refine ⟨acc', ?_⟩
    rw [resolveDepsWith, getInstance_cached env f' s a ia hia]
    simp [pseq, hacc']

/-- A successful run of the startup loop over a duplicate-free list of
uncached classes whose dependencies are either already cached or occur
earlier in the list constructs exactly the listed classes, in list order,
each immediately followed by its successful `setup()`. -/
theorem startupLoop_fresh (env : Env) (fuel : Nat) :
    ∀ (L : List Cls) (s s' : MState) (tr : List Event),
      L.Nodup →
      (∀ x ∈ L, alistGet s.instances x = some none ∨ alistGet s.instances x = none) →
      (∀ l1 x l2, L = l1 ++ x :: l2 → ∀ ds, alistGet s.deps x = some ds →
        ∀ a ∈ ds, (∃ i, alistGet s.instances a = some (some i)) ∨ a ∈ l1) →
      startupLoop env fuel s L = .ok s' tr () →
      s' = cacheAll s L ∧ tr = freshTrace s.counter L ∧
      (∀ x ∈ L, alistGet s.instances x = some none) := by
  intro L
  induction L with
  | nil =>
    intro s s' tr _ _ _ h
    injection h with h1 h2 h3
    exact ⟨h1.symm, h2.symm, fun x hx => by simp at hx⟩
  | cons c rest ih =>
    intro s s' tr hnd hentries hgood h
    rw [startupLoop] at h
    cases fuel with
    | zero => simp [getInstance, pseq] at h
    | succ f =>
      rcases hentries c (by simp) with hent | hent
      · cases hds : alistGet s.deps c with
        | none =>
          rw [getInstance_eq_keyerr env f s c hent hds] at h
          simp [pseq] at h
        | some ds =>
          rw [getInstance_eq_pseq env f s c ds hent hds] at h
          have hf : ds = [] ∨ 1 ≤ f := by
            cases ds with
            | nil => exact Or.inl rfl
            | cons d drest =>
              cases f with
              | zero =>
                exfalso
                rw [resolveDepsWith] at h
                simp [getInstance, pseq] at h
              | succ f'' => exact Or.inr (by omega)
          have hcached : ∀ a ∈ ds, ∃ ia, alistGet s.instances a = some (some ia) := by
            intro a ha
            rcases hgood [] c rest rfl ds hds a ha with hcache | hmem
            · exact hcache
            · simp at hmem
          obtain ⟨acc', hres⟩ := resolveDeps_cached_ok env f ds s [] hcached hf
          rw [hres] at h
          dsimp only [pseq] at h
          cases hcr : (env c).ctorRaises with
          | some e =>
            rw [hcr] at h
            dsimp only at h
            by_cases hte : isTypeError e = true
            · rw [if_pos hte] at h; simp at h
            · rw [if_neg hte] at h; simp at h
          | none =>
            rw [hcr] at h
            cases hsr : (env c).setupRaises with
            | some e =>
              rw [hsr] at h
              dsimp only at h
              by_cases hte : isTypeError e = true
              · rw [if_pos hte] at h; simp at h
              · rw [if_neg hte] at h; simp at h
            | none =>
              rw [hsr] at h
              dsimp only at h
              cases hl : startupLoop env (f + 1)
                  { s with instances := alistSet s.instances c (some ⟨c, s.counter⟩)
                           counter := s.counter + 1 } rest with
              | exc s3 t3 e => rw [hl] at h; simp at h
              | ok s3 t3 u =>
                rw [hl] at h
                injection h with h1 h2 h3
                have hcrest : c ∉ rest := (List.nodup_cons.mp hnd).1
                have hrest := ih
                  { s with instances := alistSet s.instances c (some ⟨c, s.counter⟩)
                           counter := s.counter + 1 }
                  s3 t3 (List.nodup_cons.mp hnd).2
                  (fun x hx => by
                    have hxc : ¬(x = c) := fun he => hcrest (he ▸ hx)
                    rw [show alistGet (alistSet s.instances c (some ⟨c, s.counter⟩)) x =
                        alistGet s.instances x from alistGet_set_ne _ _ _ _ hxc]
                    exact hentries x (List.mem_cons_of_mem _ hx))
                  (fun l1 x l2 hsplit ds' hds' a ha => by
                    rcases hgood (c :: l1) x l2 (by rw [hsplit]; rfl) ds' hds' a ha with
                      hcache | hmem
                    · obtain ⟨i, hi⟩ := hcache
                      by_cases hac : a = c
                      · subst hac
                        rw [hent] at hi
                        exact absurd hi (by simp)
                      · exact Or.inl ⟨i, by rw [alistGet_set_ne _ _ _ _ hac]; exact hi⟩
                    · rcases List.mem_cons.mp hmem with rfl | hml1
                      · exact Or.inl ⟨⟨a, s.counter⟩, alistGet_set_self _ _ _⟩
                      · exact Or.inr hml1)
                  hl
                refine ⟨?_, ?_, ?_⟩
                · rw [cacheAll, ← h1]
                  exact hrest.1
                · rw [← h2, hrest.2.1]
                  simp [freshTrace]
                · intro x hx
                  rcases List.mem_cons.mp hx with rfl | hm
                  · exact hent
                  · have hxc : ¬(x = c) := fun he => hcrest (he ▸ hm)
                    have := hrest.2.2 x hm
                    rw [show alistGet (alistSet s.instances c (some ⟨c, s.counter⟩)) x =
                        alistGet s.instances x from alistGet_set_ne _ _ _ _ hxc] at this
                    exact this
      · rw [getInstance_eq_notreg env f s c hent] at h
        simp [pseq] at h

/-- A successful `startup()` on a well-formed manager with an empty cache
constructs exactly the topological order, in order, and caches each class;
the length check of `topological_sort` has passed, so the order covers all
nodes. -/
theorem startup_fresh (env : Env) (fuel : Nat) (s s' : MState) (tr : List Event)
    (hwf : WF s) (hfresh : ∀ p ∈ s.instances, p.2 = none)
    (h : startup env fuel s = .ok s' tr ()) :
    s' = cacheAll s (kahn s.graph) ∧ tr = freshTrace s.counter (kahn s.graph) ∧
    (kahn s.graph).length = s.graph.nodes.length := by
  obtain ⟨hnd, hend, hcl, hdeps, hinst⟩ := hwf
  obtain ⟨hknd, hksub, hsort⟩ := kahn_sorted s.graph hnd hend hcl
  simp only [startup] at h
  cases hl : startupLoop env fuel s (kahn s.graph) with
  | exc s1 t1 e => rw [hl] at h; simp at h
  | ok s1 t1 u =>
    rw [hl] at h
    dsimp only at h
    by_cases hlen : ((kahn s.graph).length == s.graph.nodes.length) = true
    · rw [if_pos hlen] at h
      injection h with h1 h2 h3
      have hfl := startupLoop_fresh env fuel (kahn s.graph) s s1 t1 hknd
        (fun x _ => by
          cases hcase : alistGet s.instances x with
          | none => exact Or.inr rfl
          | some v =>
            have hv := hfresh (x, v) (mem_of_alistGet _ _ _ hcase)
            simp only at hv
            exact Or.inl (by rw [hv]))
        (fun l1 x l2 hsplit ds hds a ha => by
          right
          have hedge : (a, x) ∈ s.graph.edges :=
            hdeps (x, ds) (mem_of_alistGet _ _ _ hds) a ha
          have hxk : x ∈ kahn s.graph := by rw [hsplit]; simp
          exact sublist_pair_before l1 hknd (hsort a x hedge hxk) hsplit)
        hl
      exact ⟨h1 ▸ hfl.1, h2 ▸ hfl.2.1, by simpa using hlen⟩
    · rw [if_neg hlen] at h
      simp at h

/-! ## C5: dependencies are constructed (and set up) first -/

/-- C5 (counterexample): class `0`'s `setup()` always raises; a failed
`get(0)` leaves `0` constructed-but-never-set-up in the cache, after which
`startup()` completes and constructs the dependent `1` — so after a
completed `startup()`, `1` was constructed although its dependency `0` was
never set up. -/
theorem C5_counterexample :
    alistGet sChain.deps 1 = some [0] ∧
    c5res = .ok c5res.st [Event.construct 1 1, Event.setupOk 1] () ∧
    Event.construct 0 0 ∈ (getInstance envPoison 5 sChain 0).trace ∧
    Event.setupOk 0 ∉ (getInstance envPoison 5 sChain 0).trace ++ c5res.trace ∧
    Event.construct 1 1 ∈ c5res.trace := by
  decide

/-- C5 (amended): provided no instance is cached when `startup()` begins
(the cache is fresh — no earlier resolution has run or failed), a
successful `startup()` constructs every dependency strictly before its
dependent AND completes the dependency's `setup()` before the dependent's
construction: for `a` listed among the dependencies of a registered `b`,
the trace contains `construct a`, then `setupOk a`, then `construct b`, in
that order. -/
theorem C5_amended (env : Env) (fuel : Nat) (s s' : MState) (tr : List Event)
    (a b : Cls) (ds : List Cls)
    (hwf : WF s) (hfresh : ∀ p ∈ s.instances, p.2 = none)
    (hstart : startup env fuel s = .ok s' tr ())
    (hds : alistGet s.deps b = some ds) (ha : a ∈ ds)
    (hbreg : (alistGet s.instances b).isSome = true) :
    ∃ na nb, [Event.construct a na, Event.setupOk a,
      Event.construct b nb].Sublist tr := by
  obtain ⟨hs', htr, hlen⟩ := startup_fresh env fuel s s' tr hwf hfresh hstart
  obtain ⟨hnd, hend, hcl, hdeps, hinst⟩ := hwf
  obtain ⟨hknd, hksub, hsort⟩ := kahn_sorted s.graph hnd hend hcl
  have hbnode : b ∈ s.graph.nodes := by
    cases hcase : alistGet s.instances b with
    | none => rw [hcase] at hbreg; simp at hbreg
    | some v => exact hinst (b, v) (mem_of_alistGet _ _ _ hcase)
  have hbk : b ∈ kahn s.graph := kahn_complete s.graph hnd hend hcl hlen b hbnode
  have hedge : (a, b) ∈ s.graph.edges := hdeps (b, ds) (mem_of_alistGet _ _ _ hds) a ha
  rw [htr]
  exact freshTrace_sublist (kahn s.graph) s.counter a b (hsort a b hedge hbk)

/-- C5 (witness): the amended theorem at the concrete chain. -/
theorem C5_witness :
    ∃ na nb, [Event.construct 0 na, Event.setupOk 0,
      Event.construct 1 nb].Sublist (startup envOK 5 sChain).trace :=
  C5_amended envOK 5 sChain c4s1 (startup envOK 5 sChain).trace 0 1 [0]
    (by decide) (by decide) (by decide) (by decide) (by decide) (by decide)

/-! ## C6: shutdown order -/

/-- The shutdown loop over a duplicate-free list of cached classes (whose
teardowns succeed) tears each one down in list order and resets its entry
to absent. -/
theorem shutdownLoop_all_cached (env : Env) :
    ∀ (M : List Cls) (s : MState),
      (∀ c ∈ M, ∃ i, alistGet s.instances c = some (some i)) →
      M.Nodup →
      (∀ c ∈ M, (env c).teardownRaises = none) →
      ∃ s2, shutdownLoop env s M = .ok s2 (M.map Event.teardown) () ∧
        (∀ c ∈ M, alistGet s2.instances c = some none) ∧
        (∀ x, x ∉ M → alistGet s2.instances x = alistGet s.instances x) := by
  intro M
  induction M with
  | nil => intro s _ _ _; exact ⟨s, rfl, by simp, fun x _ => rfl⟩
  | cons c rest ih =>
    intro s hcached hnd htd
    obtain ⟨i, hi⟩ := hcached c (by simp)
    have hcrest : c ∉ rest := (List.nodup_cons.mp hnd).1
    obtain ⟨s2, heq, hset, hother⟩ := ih { s with instances := alistSet s.instances c none }
      (fun x hx => by
        obtain ⟨ix, hix⟩ := hcached x (List.mem_cons_of_mem _ hx)
        have hxc : ¬(x = c) := fun he => hcrest (he ▸ hx)
        exact ⟨ix, by rw [alistGet_set_ne _ _ _ _ hxc]; exact hix⟩)
      (List.nodup_cons.mp hnd).2
      (fun x hx => htd x (List.mem_cons_of_mem _ hx))
    refine ⟨s2, ?_, ?_, ?_⟩
    · rw [shutdownLoop, hi, htd c (by simp)]
      simp [pseq, heq]
    · intro x hx
      rcases List.mem_cons.mp hx with rfl | hm
      · rw [hother x hcrest]
        exact alistGet_set_self _ _ _
      · exact hset x hm
    · intro x hx
      have hxc : ¬(x = c) := fun he => hx (he ▸ List.mem_cons_self c rest)
      have hxr : x ∉ rest := fun hm => hx (List.mem_cons_of_mem _ hm)
      rw [hother x hxr]
      exact alistGet_set_ne _ _ _ _ hxc

/-- C6 (counterexample): two independent classes constructed by individual
`get` calls in reverse registration order `1`, then `0`; `shutdown()` tears
down in reverse topological order `1`, then `0` — NOT the exact reverse of
the construction order. -/
theorem C6_counterexample :
    getInstance envOK 2 sAB 1 = .ok c6s1 [Event.construct 1 0, Event.setupOk 1] ⟨1, 0⟩ ∧
    getInstance envOK 2 c6s1 0 = .ok c6s2 [Event.construct 0 1, Event.setupOk 0] ⟨0, 1⟩ ∧
    c6res = .ok c6res.st [Event.teardown 1, Event.teardown 0] () ∧
    teardownSeq c6res.trace ≠
      (constructSeq ([Event.construct 1 0, Event.setupOk 1] ++
        [Event.construct 0 1, Event.setupOk 0])).reverse := by
  decide

/-- C6 (amended): `shutdown()` tears down cached instances in reverse
topological order, resetting each entry to absent; when the instances were
constructed by a successful `startup()` on a fresh cache, that order is the
exact reverse of the construction order (construction via individual `get`
calls in a different order is torn down in reverse topological, not reverse
construction, order). -/
theorem C6_amended (env : Env) (fuel : Nat) (s s' : MState) (tr : List Event)
    (hwf : WF s) (hfresh : ∀ p ∈ s.instances, p.2 = none)
    (hstart : startup env fuel s = .ok s' tr ())
    (htd : ∀ c, (env c).teardownRaises = none) :
    ∃ s2, shutdown env s' =
        .ok s2 ((constructSeq tr).reverse.map Event.teardown) () ∧
      (∀ c ∈ constructSeq tr, alistGet s2.instances c = some none) := by
  obtain ⟨hs', htr, hlen⟩ := startup_fresh env fuel s s' tr hwf hfresh hstart
  obtain ⟨hnd, hend, hcl, hdeps, hinst⟩ := hwf
  obtain ⟨hknd, hksub, hsort⟩ := kahn_sorted s.graph hnd hend hcl
  have hcseq : constructSeq tr = kahn s.graph := by
    rw [htr]; exact constructSeq_freshTrace _ _
  have hgr : s'.graph = s.graph := by rw [hs']; exact (cacheAll_frame _ _).2
  have hcachedK : ∀ c ∈ (kahn s.graph).reverse,
      ∃ i, alistGet s'.instances c = some (some i) := by
    intro c hc
    rw [List.mem_reverse] at hc
    obtain ⟨n, hn⟩ := cacheAll_get (kahn s.graph) s c hc
    exact ⟨⟨c, n⟩, hs' ▸ hn⟩
  obtain ⟨s2, heq, hset, _⟩ := shutdownLoop_all_cached env (kahn s.graph).reverse s'
    hcachedK (by rw [List.nodup_reverse]; exact hknd) (fun c _ => htd c)
  refine ⟨s2, ?_, ?_⟩
  · simp only [shutdown, hgr]
    rw [if_pos (by simp [hlen])]
    rw [hcseq, heq]
  · intro c hc
    rw [hcseq] at hc
    exact hset c (List.mem_reverse.mpr hc)

/-- C6 (witness): the amended theorem at the chain scenario. -/
theorem C6_witness :
    ∃ s2, shutdown envOK c4s1 =
        .ok s2 ((constructSeq (startup envOK 5 sChain).trace).reverse.map Event.teardown) () ∧
      (∀ c ∈ constructSeq (startup envOK 5 sChain).trace,
        alistGet s2.instances c = some none) :=
  C6_amended envOK 5 sChain c4s1 (startup envOK 5 sChain).trace
    (by decide) (by decide) (by decide) (fun _ => rfl)

/-! ## C1: registration, acyclicity and the missing rollback -/

/-- C1 (amended): a successful `register` leaves the graph acyclic; a
`register` whose new edges close a cycle raises
`ValueError("Circular dependency detected ...")`, but the mutations made
before the check stay committed: the cache entry is (re)set to `None`, the
dependency list is stored, and the node and cycle-closing edges remain in
the graph, which is left cyclic. -/
theorem C1_amended (s : MState) (c : Cls) (ds : List Cls) :
    (∀ s' tr u, register s c ds = .ok s' tr u → isDAG s'.graph = true) ∧
    (∀ s' tr e, register s c ds = .exc s' tr e →
      e = .valueError ("Circular dependency detected when registering " ++ toString c) ∧
      tr = [] ∧
      s'.instances = alistSet s.instances c none ∧
      s'.deps = alistSet s.deps c ds ∧
      s'.graph = ds.foldl (fun g d => g.addEdge d c) (s.graph.addNode c) ∧
      isDAG s'.graph = false) := by
  constructor
  · intro s' tr u h
    simp only [register] at h
    split at h
    · next hdag =>
      injection h with h1 h2 h3
      subst h1
      exact hdag
    · exact absurd h (by simp)
  · intro s' tr e h
    simp only [register] at h
    split at h
    · exact absurd h (by simp)
    · next hdag =>
      injection h with h1 h2 h3
      subst h1; subst h2; subst h3
      refine ⟨rfl, rfl, rfl, rfl, rfl, ?_⟩
      exact Bool.eq_false_iff.mpr hdag

/-- C1 (witness): the amended theorem applied to a successful registration
and to the cycle-closing one. -/
theorem C1_witness :
    isDAG sA.graph = true ∧ isDAG c1res.st.graph = false :=
  ⟨(C1_amended mstate0 0 []).1 sA [] () (by decide),
   ((C1_amended c1s1 1 [0]).2 c1res.st []
     (.valueError ("Circular dependency detected when registering 1"))
     (by decide)).2.2.2.2.2⟩

/-- C1 (counterexample): registering `0` with dependency `1` and then `1`
with dependency `0` raises the Circular-Dependency `ValueError`, but the
manager's observable state is NOT left as it was before the rejected call:
`1` becomes a registered type (cache entry present), its dependency list is
stored, and the graph is left cyclic. -/
theorem C1_counterexample :
    c1res.errOf = some (.valueError ("Circular dependency detected when registering 1")) ∧
    alistGet c1s1.instances 1 = none ∧
    alistGet c1res.st.instances 1 = some none ∧
    alistGet c1res.st.deps 1 = some [0] ∧
    isDAG c1s1.graph = true ∧
    isDAG c1res.st.graph = false := by
  decide

/-! ## C2: what a failed resolution leaves in the cache -/

/-- C2 (counterexample): class `0`'s `setup()` raises; `get(0)` aborts, but
the cache entry for `0` does NOT remain absent — the constructed,
never-set-up instance stays cached, and a later `get(0)` returns it without
attempting construction again. -/
theorem C2_counterexample :
    c2res.errOf = some (.valueError "boom") ∧
    alistGet sA.instances 0 = some none ∧
    alistGet c2res.st.instances 0 = some (some ⟨0, 0⟩) ∧
    getInstance envSetupVal 2 c2res.st 0 = .ok c2res.st [] ⟨0, 0⟩ := by
  decide

/-! ## C3: which exceptions get wrapped -/

/-- C3 (counterexample): class `0`'s constructor raises
`ValueError("boom")`; the error surfaced by `get(0)` is that very
`ValueError`, not an Instantiation-Failed (`RuntimeError`) wrapper — only
`TypeError` is caught and wrapped. -/
theorem C3_counterexample :
    c3res = .exc sA [] (.valueError "boom") := by
  decide

/-- C3 (amended): during resolution of an uncached class whose dependencies
resolve successfully, an exception raised by the constructor or by
`setup()` is wrapped in `RuntimeError("Failed to instantiate ...") from t`
exactly when it is a `TypeError`; any other exception propagates to the
caller unchanged. -/
theorem C3_amended (env : Env) (fuel : Nat) (s s1 : MState) (cls : Cls) (ds : List Cls)
    (tr : List Event) (acc : List (String × Inst))
    (hent : alistGet s.instances cls = some none)
    (hds : alistGet s.deps cls = some ds)
    (hres : resolveDepsWith env (getInstance env fuel) s ds [] = .ok s1 tr acc) :
    (∀ e, (env cls).ctorRaises = some e →
      getInstance env (fuel + 1) s cls =
        .exc s1 tr
          (if isTypeError e then
            .runtimeErrorFrom ("Failed to instantiate " ++ toString cls) e
          else e)) ∧
    ((env cls).ctorRaises = none → ∀ e, (env cls).setupRaises = some e →
      getInstance env (fuel + 1) s cls =
        .exc { s1 with instances := alistSet s1.instances cls (some ⟨cls, s1.counter⟩)
                       counter := s1.counter + 1 }
          (tr ++ [.construct cls s1.counter, .setupFail cls])
          (if isTypeError e then
            .runtimeErrorFrom ("Failed to instantiate " ++ toString cls) e
          else e)) := by
  constructor
  · intro e he
    by_cases hte : isTypeError e = true <;>
      simp [getInstance, pseq, hent, hds, hres, he, hte]
  · intro hc e he
    by_cases hte : isTypeError e = true <;>
      simp [getInstance, pseq, hent, hds, hres, hc, he, hte]

/-- C3 (witness): the amended theorem applied to the constructor that
raises a non-`TypeError`. -/
theorem C3_witness :
    getInstance envCtorVal 2 sA 0 =
      .exc sA []
        (if isTypeError (.valueError "boom") then
          .runtimeErrorFrom ("Failed to instantiate " ++ toString (0 : Cls)) (.valueError "boom")
        else .valueError "boom") :=
  (C3_amended envCtorVal 1 sA sA 0 [] [] [] (by decide) (by decide) (by decide)).1
    (.valueError "boom") rfl

/-! ## C8: the Proxy contract -/

/-- C8: if `_setup_proxy_impl` returns while the `_instance` slot is still
empty, `setup()` raises the Contract-Violation `RuntimeError`; if the slot
was populated, `setup()` succeeds and attribute/item access on the proxy is
forwarded to the payload. -/
theorem C8_theorem (impl : Option Payload → Option Payload) (slot : Option Payload) :
    (impl slot = none →
      proxySetup impl slot =
        .error (.runtimeError ("The `_instance` attribute must be set in the `_setup_proxy_impl` method."))) ∧
    (∀ p, impl slot = some p →
      proxySetup impl slot = .ok (some p) ∧
      (∀ item v, alistGet p.attrs item = some v → proxyGetattr (some p) item = .ok v) ∧
      (∀ item v, alistGet p.items item = some v → proxyGetitem (some p) item = .ok v)) := by
  constructor
  · intro h
    simp [proxySetup, h]
  · intro p hp
    refine ⟨by simp [proxySetup, hp], ?_, ?_⟩
    · intro item v hv
      simp [proxyGetattr, hv]
    · intro item v hv
      simp [proxyGetitem, hv]

/-- C8 (witness). -/
theorem C8_witness :
    proxySetup (fun _ => some ⟨[("url", 7)], [(1, 2)]⟩) none = .ok (some ⟨[("url", 7)], [(1, 2)]⟩) ∧
    proxyGetattr (some ⟨[("url", 7)], [(1, 2)]⟩) "url" = .ok 7 ∧
    proxyGetitem (some ⟨[("url", 7)], [(1, 2)]⟩) 1 = .ok 2 ∧
    proxySetup (fun _ => none) none =
      .error (.runtimeError ("The `_instance` attribute must be set in the `_setup_proxy_impl` method.")) := by
  have h1 := (C8_theorem (fun _ => some ⟨[("url", 7)], [(1, 2)]⟩) none).2 ⟨[("url", 7)], [(1, 2)]⟩ rfl
  have h2 := (C8_theorem (fun _ => none) none).1 rfl
  exact ⟨h1.1, h1.2.1 "url" 7 (by decide), h1.2.2 1 2 (by decide), h2⟩

/-! ## C9: missing settings keys -/

/-- C9: attribute-style and item access for a key absent from the loaded
configuration fail with a `ConfigurationError` whose message names the
missing key (and carries the remediation hints of
`_generate_error_message`), while `get(key, default)` returns the default
without failing. -/
theorem C9_theorem (files : List String) (pfx : String) (cfg : Config) (key : String)
    (dflt : Nat) (h : alistGet cfg key = none) :
    appSettingsGetattr files pfx cfg key =
      .error (.configurationError (generateErrorMessage files pfx key)) ∧
    appSettingsGetitem files pfx cfg key =
      .error (.configurationError (generateErrorMessage files pfx key)) ∧
    (∃ pre post, generateErrorMessage files pfx key = pre ++ key ++ post) ∧
    appSettingsGet cfg key dflt = dflt := by
  refine ⟨?_, ?_, ⟨"Setting '", settingMsgTail files pfx key, rfl⟩, ?_⟩
  · simp [appSettingsGetattr, dynaconfGetattr, h]
  · simp [appSettingsGetitem, dynaconfGetitem, h]
  · simp [appSettingsGet, h]

/-- C9 (witness). -/
theorem C9_witness :
    appSettingsGetattr ["../settings.toml"] "APP" [("present", 1)] "api_key" =
      .error (.configurationError (generateErrorMessage ["../settings.toml"] "APP" "api_key")) ∧
    appSettingsGet [("present", 1)] "api_key" 42 = 42 := by
  have h := C9_theorem ["../settings.toml"] "APP" [("present", 1)] "api_key" 42 (by decide)
  exact ⟨h.1, h.2.2.2⟩

/-! ## C10: re-registration -/

/-- C10 (counterexample): re-registering an already-registered type CAN
fail — re-registering `0` with the new dependency `1` (where `1` already
depends on `0`) raises the Circular-Dependency `ValueError`. -/
theorem C10_counterexample :
    alistGet sChain.instances 0 = some none ∧
    c10cyc.errOf = some (.valueError ("Circular dependency detected when registering 0")) := by
  decide

/-- C10 (amended): re-registering an already-registered type is never
rejected as a duplicate: whenever the new dependency edges keep the graph
acyclic the call succeeds, silently overwriting the stored dependency list
and resetting the type's cache entry to absent — discarding any previously
constructed instance without any `teardown()` call (the call's event trace
is empty). -/
theorem C10_amended (s : MState) (c : Cls) (ds : List Cls) (v : Option Inst)
    (hreg : alistGet s.instances c = some v)
    (hdag : isDAG (ds.foldl (fun g d => g.addEdge d c) (s.graph.addNode c)) = true) :
    ∃ s', register s c ds = .ok s' [] () ∧
      alistGet s'.instances c = some none ∧
      alistGet s'.deps c = some ds ∧
      teardownSeq (register s c ds).trace = [] := by
  refine ⟨{ instances := alistSet s.instances c none
            deps := alistSet s.deps c ds
            graph := ds.foldl (fun g d => g.addEdge d c) (s.graph.addNode c)
            counter := s.counter }, ?_, ?_, ?_, ?_⟩
  · simp only [register]
    rw [if_pos hdag]
  · exact alistGet_set_self _ _ _
  · exact alistGet_set_self _ _ _
  · simp only [register]
    rw [if_pos hdag]
    rfl

/-- C10 (witness): after a successful startup on the chain (`0` cached),
re-registering `0` with no dependencies succeeds, resets `0`'s entry and
stores the new dependency list, with no teardown event. -/
theorem C10_witness :
    ∃ s', register c4s1 0 [] = .ok s' [] () ∧
      alistGet s'.instances 0 = some none ∧
      alistGet s'.deps 0 = some [] ∧
      teardownSeq (register c4s1 0 []).trace = [] :=
  C10_amended c4s1 0 [] (some ⟨0, 0⟩) (by decide) (by decide)

end FastapiSugar
